import Mathlib

/-!
# Shallow embedding of `exercise2/shred/shred.go`

`Shred` drives a file capability (the Go interface `File`) through
open, Stat, three passes of (rand.Read, WriteAt, Sync), Close and Remove, with a
deferred Close registered right after a successful open.

The capability and the opener are arbitrary Go values, possibly stateful, so
every operation is a function on an explicit world state `σ`.  Each run returns
its outcome, the final world and the ordered list of calls it made.

Two capabilities of the repository are embedded as well: `MockFile` of
mockfile_test.go, with the struct as the world, and `RealFile` of shred.go over
a model of the calls it makes into package os; `main` of main.go runs
`ShredFile` on the argument vector.
-/

namespace shred

/-! ## Data model -/

/-- One byte of a Go byte slice. -/
abbrev Byte := Fin 256

/-- A non-nil Go error value; a Go result of type error is an `Option Error`,
with `none` for nil. -/
structure Error where
  msg : String
  deriving DecidableEq, Repr

/-- The part of `os.FileInfo` that `Shred` reads: the result of `Size()`. -/
structure FileInfo where
  Size : Int
  deriving DecidableEq, Repr

/-- The interface `File` (shred.go lines 12 to 18).  Every method may read and
change the world, so it maps a world to its Go results and the next world. -/
structure File (σ : Type) where
  WriteAt : List Byte → Int → σ → (Int × Option Error) × σ
  Sync : σ → Option Error × σ
  Stat : σ → (Option FileInfo × Option Error) × σ
  Close : σ → Option Error × σ
  Remove : σ → Option Error × σ

/-- The type of the parameter openFile of `Shred`: both Go results are
independent, either may be nil. -/
abbrev Opener (σ : Type) := String → σ → (Option (File σ) × Option Error) × σ

/-- The type of `crypto/rand.Read`, which `Shred` calls on the pass buffer: from
the contents of the slice and the world it yields the bytes it stores from
index 0 on, together with its Go results n and err. -/
abbrev RandRead (σ : Type) := List Byte → σ → (List Byte × Int × Option Error) × σ

/-- One call made by `Shred`, with the arguments passed and the results received.
The two call sites of Close are kept apart: `Close` is the explicit call of line
76, `deferredClose` the call registered by the defer statement of line 49. -/
inductive Event where
  | openFile (name : String) (file : Bool) (err : Option Error)
  | Stat (fi : Option FileInfo) (err : Option Error)
  | randRead (b : List Byte) (n : Int) (err : Option Error)
  | WriteAt (b : List Byte) (off : Int) (n : Int) (err : Option Error)
  | Sync (err : Option Error)
  | Close (err : Option Error)
  | Remove (err : Option Error)
  | deferredClose (err : Option Error)
  deriving DecidableEq, Repr

/-- How a call of `Shred` ends: it returns its error result, or a run-time
panic unwinds it. -/
inductive Outcome where
  | returned (err : Option Error)
  | panicked
  deriving DecidableEq, Repr

/-- The observable result of running a piece of `Shred`. -/
structure Run (σ : Type) where
  outcome : Outcome
  trace : List Event
  world : σ

/-! ## The program -/

/-- The constant `passes` of `Shred` (line 42). -/
def passes : Nat := 3

/-- The allocation limit of `make` on a 64-bit platform such as linux/amd64:
the constant maxAlloc of the Go run-time system, 2^48 bytes.  A byte slice may
be as long as this and no longer. -/
def maxAlloc : Nat := 281474976710656

/-- The Go expression `make([]byte, size)`: a zeroed slice, or the run-time
panic "makeslice: len out of range" (`none`) for a length that is negative or
above the allocation limit.  Running out of memory for a length within the
limit is no panic but a fatal error of the run-time system, which ends the
program; it is not modelled. -/
def makeBytes (size : Int) : Option (List Byte) :=
  if size < 0 ∨ (maxAlloc : Int) < size then none else some (List.replicate size.toNat 0)

/-- Storing `src` into a slice with contents `dst` from index 0 on: the length of
the slice cannot change. -/
def overlay (src dst : List Byte) : List Byte :=
  src.take dst.length ++ dst.drop src.length

/-- The result of the loop of lines 60 to 73: `err` is the error an iteration
returned from `Shred` with, or `none` when the loop ran to its end. -/
structure LoopRun (σ : Type) where
  err : Option Error
  trace : List Event
  world : σ

/-- The loop of lines 60 to 73 with `n` iterations left: rand.Read on the
buffer, its results discarded, then WriteAt with the buffer at offset 0, then
Sync; the first error of WriteAt or Sync ends the loop and the function. -/
def passLoop {σ : Type} (rd : RandRead σ) (file : File σ) :
    Nat → List Byte → σ → LoopRun σ
  | 0, _, w => ⟨none, [], w⟩
  | n + 1, buf, w =>
    match rd buf w with
    | ((out, rn, rerr), w1) =>
      let buf1 := overlay out buf
      match file.WriteAt buf1 0 w1 with
      | ((wn, some err), w2) =>
        ⟨some err, [Event.randRead buf1 rn rerr, Event.WriteAt buf1 0 wn (some err)], w2⟩
      | ((wn, none), w2) =>
        match file.Sync w2 with
        | (some err, w3) =>
          ⟨some err,
            [Event.randRead buf1 rn rerr, Event.WriteAt buf1 0 wn none,
              Event.Sync (some err)], w3⟩
        | (none, w3) =>
          let rest := passLoop rd file n buf1 w3
          ⟨rest.err,
            Event.randRead buf1 rn rerr :: Event.WriteAt buf1 0 wn none ::
              Event.Sync none :: rest.trace, rest.world⟩

/-- Lines 51 to 87 of `Shred`: everything after the defer statement. -/
def shredBody {σ : Type} (rd : RandRead σ) (file : File σ) (w : σ) : Run σ :=
  match file.Stat w with
  | ((fi, some err), w1) => ⟨Outcome.returned (some err), [Event.Stat fi (some err)], w1⟩
  | ((none, none), w1) => ⟨Outcome.panicked, [Event.Stat none none], w1⟩
  | ((some fi, none), w1) =>
    match makeBytes fi.Size with
    | none => ⟨Outcome.panicked, [Event.Stat (some fi) none], w1⟩
    | some buf =>
      let loop := passLoop rd file passes buf w1
      match loop.err with
      | some err =>
        ⟨Outcome.returned (some err), Event.Stat (some fi) none :: loop.trace, loop.world⟩
      | none =>
        match file.Close loop.world with
        | (some err, w2) =>
          ⟨Outcome.returned (some err),
            Event.Stat (some fi) none :: (loop.trace ++ [Event.Close (some err)]), w2⟩
        | (none, w2) =>
          match file.Remove w2 with
          | (some err, w3) =>
            ⟨Outcome.returned (some err),
              Event.Stat (some fi) none ::
                (loop.trace ++ [Event.Close none, Event.Remove (some err)]), w3⟩
          | (none, w3) =>
            ⟨Outcome.returned none,
              Event.Stat (some fi) none ::
                (loop.trace ++ [Event.Close none, Event.Remove none]), w3⟩

/-- The function `Shred` (lines 41 to 88), with `rd` for crypto/rand.Read and
`w` for the world it is called in.  A failed open returns at once; a nil file
with a nil error panics at the defer statement; otherwise the body runs and the
deferred Close is called when the body returns or panics, its result
discarded. -/
def Shred {σ : Type} (rd : RandRead σ) (path : String) (openFile : Opener σ) (w : σ) :
    Run σ :=
  match openFile path w with
  | ((file, some err), w1) =>
    ⟨Outcome.returned (some err), [Event.openFile path file.isSome (some err)], w1⟩
  | ((none, none), w1) => ⟨Outcome.panicked, [Event.openFile path false none], w1⟩
  | ((some file, none), w1) =>
    let body := shredBody rd file w1
    match file.Close body.world with
    | (cerr, w2) =>
      ⟨body.outcome,
        Event.openFile path true none :: (body.trace ++ [Event.deferredClose cerr]), w2⟩

/-! ## Observing a run -/

/-- The eight kinds of call `Shred` makes. -/
inductive Call where
  | openFile | Stat | randRead | WriteAt | Sync | Close | Remove | deferredClose
  deriving DecidableEq, Repr

/-- The kind of call an event records. -/
def Event.call : Event → Call
  | Event.openFile _ _ _ => Call.openFile
  | Event.Stat _ _ => Call.Stat
  | Event.randRead _ _ _ => Call.randRead
  | Event.WriteAt _ _ _ _ => Call.WriteAt
  | Event.Sync _ => Call.Sync
  | Event.Close _ => Call.Close
  | Event.Remove _ => Call.Remove
  | Event.deferredClose _ => Call.deferredClose

/-- The error result the call returned. -/
def Event.err : Event → Option Error
  | Event.openFile _ _ err => err
  | Event.Stat _ err => err
  | Event.randRead _ _ err => err
  | Event.WriteAt _ _ _ err => err
  | Event.Sync err => err
  | Event.Close err => err
  | Event.Remove err => err
  | Event.deferredClose err => err

/-- The calls whose error result `Shred` checks: all but rand.Read and the
deferred Close. -/
def Call.isStep : Call → Bool
  | Call.randRead => false
  | Call.deferredClose => false
  | _ => true

/-- The checked steps of a run, in the order they were taken. -/
def steps (t : List Event) : List Event :=
  t.filter fun e => e.call.isStep

/-- The ten checked steps of a complete run: open, Stat, three times WriteAt
and Sync, the explicit Close, Remove. -/
def stepOrder : List Call :=
  [Call.openFile, Call.Stat, Call.WriteAt, Call.Sync, Call.WriteAt, Call.Sync,
    Call.WriteAt, Call.Sync, Call.Close, Call.Remove]

/-- How many calls of kind `c` a run made. -/
def calls (c : Call) (t : List Event) : Nat :=
  t.countP fun e => e.call = c

/-- The WriteAt and Sync calls of `n` complete passes: write, sync, write, sync,
and so on. -/
def passCalls : Nat → List Call
  | 0 => []
  | n + 1 => Call.WriteAt :: Call.Sync :: passCalls n

/-- A call of the method Close, from either call site. -/
def Event.isClose (e : Event) : Bool :=
  e.call = Call.Close || e.call = Call.deferredClose

/-- All ways of cutting a list into the elements before a position, the element
there and the elements after it. -/
def splits {α : Type} : List α → List (List α × α × List α)
  | [] => []
  | a :: l => ([], a, l) :: (splits l).map fun s => (a :: s.1, s.2.1, s.2.2)

/-! ## The control-flow paths of `Shred` -/

/-- What one iteration of the loop passed and received besides the error
results of WriteAt and Sync: the buffer as rand.Read left it, the results of
rand.Read, and the count returned by WriteAt. -/
structure Pass where
  b : List Byte
  rn : Int
  rerr : Option Error
  wn : Int

/-- The calls of an iteration whose WriteAt and Sync both returned nil. -/
def Pass.ok (p : Pass) : List Event :=
  [Event.randRead p.b p.rn p.rerr, Event.WriteAt p.b 0 p.wn none, Event.Sync none]

/-- The calls of an iteration whose WriteAt returned `err`. -/
def Pass.writeFailed (p : Pass) (err : Error) : List Event :=
  [Event.randRead p.b p.rn p.rerr, Event.WriteAt p.b 0 p.wn (some err)]

/-- The calls of an iteration whose Sync returned `err`. -/
def Pass.syncFailed (p : Pass) (err : Error) : List Event :=
  [Event.randRead p.b p.rn p.rerr, Event.WriteAt p.b 0 p.wn none, Event.Sync (some err)]

/-- The calls before the loop when open and Stat succeeded. -/
def opened (path : String) (fi : FileInfo) : List Event :=
  [Event.openFile path true none, Event.Stat (some fi) none]

/-- The fourteen paths through `Shred`, each with its outcome and its calls:
one constructor per return statement and per panic. -/
inductive Path (path : String) : Outcome → List Event → Prop
  | openFailed (file : Bool) (err : Error) :
      Path path (Outcome.returned (some err)) [Event.openFile path file (some err)]
  | nilFile : Path path Outcome.panicked [Event.openFile path false none]
  | statFailed (fi : Option FileInfo) (err : Error) (cerr : Option Error) :
      Path path (Outcome.returned (some err))
        [Event.openFile path true none, Event.Stat fi (some err), Event.deferredClose cerr]
  | nilInfo (cerr : Option Error) :
      Path path Outcome.panicked
        [Event.openFile path true none, Event.Stat none none, Event.deferredClose cerr]
  | sizeOutOfRange (fi : FileInfo) (cerr : Option Error) :
      fi.Size < 0 ∨ (maxAlloc : Int) < fi.Size →
      Path path Outcome.panicked (opened path fi ++ [Event.deferredClose cerr])
  | write1Failed (fi : FileInfo) (p1 : Pass) (err : Error) (cerr : Option Error) :
      0 ≤ fi.Size → p1.b.length = fi.Size.toNat →
      Path path (Outcome.returned (some err))
        (opened path fi ++ p1.writeFailed err ++ [Event.deferredClose cerr])
  | sync1Failed (fi : FileInfo) (p1 : Pass) (err : Error) (cerr : Option Error) :
      0 ≤ fi.Size → p1.b.length = fi.Size.toNat →
      Path path (Outcome.returned (some err))
        (opened path fi ++ p1.syncFailed err ++ [Event.deferredClose cerr])
  | write2Failed (fi : FileInfo) (p1 p2 : Pass) (err : Error) (cerr : Option Error) :
      0 ≤ fi.Size → p1.b.length = fi.Size.toNat → p2.b.length = fi.Size.toNat →
      Path path (Outcome.returned (some err))
        (opened path fi ++ p1.ok ++ p2.writeFailed err ++ [Event.deferredClose cerr])
  | sync2Failed (fi : FileInfo) (p1 p2 : Pass) (err : Error) (cerr : Option Error) :
      0 ≤ fi.Size → p1.b.length = fi.Size.toNat → p2.b.length = fi.Size.toNat →
      Path path (Outcome.returned (some err))
        (opened path fi ++ p1.ok ++ p2.syncFailed err ++ [Event.deferredClose cerr])
  | write3Failed (fi : FileInfo) (p1 p2 p3 : Pass) (err : Error) (cerr : Option Error) :
      0 ≤ fi.Size → p1.b.length = fi.Size.toNat → p2.b.length = fi.Size.toNat →
      p3.b.length = fi.Size.toNat →
      Path path (Outcome.returned (some err))
        (opened path fi ++ p1.ok ++ p2.ok ++ p3.writeFailed err ++ [Event.deferredClose cerr])
  | sync3Failed (fi : FileInfo) (p1 p2 p3 : Pass) (err : Error) (cerr : Option Error) :
      0 ≤ fi.Size → p1.b.length = fi.Size.toNat → p2.b.length = fi.Size.toNat →
      p3.b.length = fi.Size.toNat →
      Path path (Outcome.returned (some err))
        (opened path fi ++ p1.ok ++ p2.ok ++ p3.syncFailed err ++ [Event.deferredClose cerr])
  | closeFailed (fi : FileInfo) (p1 p2 p3 : Pass) (err : Error) (cerr : Option Error) :
      0 ≤ fi.Size → p1.b.length = fi.Size.toNat → p2.b.length = fi.Size.toNat →
      p3.b.length = fi.Size.toNat →
      Path path (Outcome.returned (some err))
        (opened path fi ++ p1.ok ++ p2.ok ++ p3.ok ++
          [Event.Close (some err), Event.deferredClose cerr])
  | removeFailed (fi : FileInfo) (p1 p2 p3 : Pass) (err : Error) (cerr : Option Error) :
      0 ≤ fi.Size → p1.b.length = fi.Size.toNat → p2.b.length = fi.Size.toNat →
      p3.b.length = fi.Size.toNat →
      Path path (Outcome.returned (some err))
        (opened path fi ++ p1.ok ++ p2.ok ++ p3.ok ++
          [Event.Close none, Event.Remove (some err), Event.deferredClose cerr])
  | completed (fi : FileInfo) (p1 p2 p3 : Pass) (cerr : Option Error) :
      0 ≤ fi.Size → p1.b.length = fi.Size.toNat → p2.b.length = fi.Size.toNat →
      p3.b.length = fi.Size.toNat →
      Path path (Outcome.returned none)
        (opened path fi ++ p1.ok ++ p2.ok ++ p3.ok ++
          [Event.Close none, Event.Remove none, Event.deferredClose cerr])

/-! ## Capabilities for the examples -/

/-- The error the example capability fails with. -/
def callFailed : Error := ⟨"call failed"⟩

/-- A stateful capability over a file of `size` bytes: the world counts the
calls made on the capability, and the call number `k` (counted from 1) is the
only one that returns an error.  With `k = 0` no call fails. -/
def countingFile (size : Int) (k : Nat) : File Nat where
  WriteAt := fun b _ c =>
    if c + 1 = k then ((0, some callFailed), c + 1) else ((b.length, none), c + 1)
  Sync := fun c => (if c + 1 = k then some callFailed else none, c + 1)
  Stat := fun c =>
    if c + 1 = k then ((none, some callFailed), c + 1) else ((some ⟨size⟩, none), c + 1)
  Close := fun c => (if c + 1 = k then some callFailed else none, c + 1)
  Remove := fun c => (if c + 1 = k then some callFailed else none, c + 1)

/-- An opener that succeeds with the counting capability. -/
def countingOpener (size : Int) (k : Nat) : Opener Nat :=
  fun _ c => ((some (countingFile size k), none), c)

/-- An opener that fails, yet returns a non-nil File with the error, as the
opener of the second case of TestShred does. -/
def failingOpener : Opener Nat :=
  fun _ c => ((some (countingFile 0 0), some ⟨"file does not exist"⟩), c)

/-- A stand-in for rand.Read in the examples: it fills the whole slice with
the byte `c + 1`, where `c` is the number of calls made on the capability so
far, and reports success. -/
def fillRead : RandRead Nat :=
  fun b c => ((List.replicate b.length (Fin.ofNat (c + 1)), (b.length : Int), none), c)

/-! ## Further observations on a run -/

/-- The event records a call that the capability `f` can answer so: its results
are those of the method of `f` in some world, called with the recorded
arguments.  The opener and rand.Read are no methods of the capability. -/
def Answered {σ : Type} (f : File σ) : Event → Prop
  | Event.openFile _ _ _ => True
  | Event.randRead _ _ _ => True
  | Event.Stat fi err => ∃ w, (f.Stat w).1.1 = fi ∧ (f.Stat w).1.2 = err
  | Event.WriteAt b off n err =>
    ∃ w, (f.WriteAt b off w).1.1 = n ∧ (f.WriteAt b off w).1.2 = err
  | Event.Sync err => ∃ w, (f.Sync w).1 = err
  | Event.Close err => ∃ w, (f.Close w).1 = err
  | Event.Remove err => ∃ w, (f.Remove w).1 = err
  | Event.deferredClose err => ∃ w, (f.Close w).1 = err

/-- The calls recorded in `t` were made, one after the other and in this order,
on the capability `f` and on rand.Read, starting in the world `w`: each call was
passed the recorded arguments in the world its predecessor left, the recorded
results are what it returned there, and the last call left the world `w2`.  A
rand.Read call was made on a slice as long as the recorded one, which is that
slice as the call left it.  The opener is no call on the capability. -/
def Performed {σ : Type} (rd : RandRead σ) (f : File σ) : σ → List Event → σ → Prop
  | w, [], w2 => w2 = w
  | _, Event.openFile _ _ _ :: _, _ => False
  | w, Event.Stat fi err :: t, w2 =>
    (f.Stat w).1 = (fi, err) ∧ Performed rd f (f.Stat w).2 t w2
  | w, Event.randRead b n err :: t, w2 =>
    ∃ buf : List Byte, buf.length = b.length ∧ overlay (rd buf w).1.1 buf = b ∧
      (rd buf w).1.2 = (n, err) ∧ Performed rd f (rd buf w).2 t w2
  | w, Event.WriteAt b off n err :: t, w2 =>
    (f.WriteAt b off w).1 = (n, err) ∧ Performed rd f (f.WriteAt b off w).2 t w2
  | w, Event.Sync err :: t, w2 => (f.Sync w).1 = err ∧ Performed rd f (f.Sync w).2 t w2
  | w, Event.Close err :: t, w2 => (f.Close w).1 = err ∧ Performed rd f (f.Close w).2 t w2
  | w, Event.Remove err :: t, w2 => (f.Remove w).1 = err ∧ Performed rd f (f.Remove w).2 t w2
  | w, Event.deferredClose err :: t, w2 =>
    (f.Close w).1 = err ∧ Performed rd f (f.Close w).2 t w2

/-- The five methods of the interface `File`. -/
inductive Method where
  | WriteAt | Sync | Stat | Close | Remove
  deriving DecidableEq, Repr

/-- The method of the capability that a call invokes; the deferred Close is a
call of Close, the opener and rand.Read are no methods of the capability. -/
def Call.method : Call → Option Method
  | Call.openFile => none
  | Call.randRead => none
  | Call.Stat => some Method.Stat
  | Call.WriteAt => some Method.WriteAt
  | Call.Sync => some Method.Sync
  | Call.Close => some Method.Close
  | Call.Remove => some Method.Remove
  | Call.deferredClose => some Method.Close

/-- The methods called on the capability during a run, in order. -/
def methodCalls (t : List Event) : List Method :=
  t.filterMap fun e => e.call.method

/-- The outcome that the calls of a run determine, read off the checked steps
alone: the error of the first step that failed; nil when all ten steps were
taken and none failed; a panic when the steps stop short without an error. -/
def verdict (t : List Event) : Outcome :=
  match (steps t).find? fun e => e.err.isSome with
  | some e => Outcome.returned e.err
  | none =>
    if (steps t).map Event.call = stepOrder then Outcome.returned none else Outcome.panicked

/-- Two capabilities that differ at most in the count n that WriteAt returns:
the other four methods are the same, and WriteAt returns the same error and
leaves the same world. -/
def SameButCount {σ : Type} (f g : File σ) : Prop :=
  f.Sync = g.Sync ∧ f.Stat = g.Stat ∧ f.Close = g.Close ∧ f.Remove = g.Remove ∧
  ∀ b off w, (f.WriteAt b off w).1.2 = (g.WriteAt b off w).1.2 ∧
    (f.WriteAt b off w).2 = (g.WriteAt b off w).2

/-- The event without the count that WriteAt returned. -/
def Event.eraseCount : Event → Event
  | Event.WriteAt b off _ err => Event.WriteAt b off 0 err
  | e => e

/-! ## The substitute backend: `MockFile` (mockfile_test.go) -/

/-- The Go type int on a 64-bit platform: the result of an addition wraps
around into the range from -2^63 to 2^63 - 1. -/
def wrapInt (x : Int) : Int :=
  (x + 9223372036854775808) % 18446744073709551616 - 9223372036854775808

/-- The struct `MockFile` (mockfile_test.go lines 9 to 19). -/
structure MockFile where
  size : Int
  writeCount : Int
  writeError : Option Error
  syncError : Option Error
  statError : Option Error
  closeError : Option Error
  removeError : Option Error
  closed : Bool
  removed : Bool
  deriving DecidableEq, Repr

/-- The method `MockFile.WriteAt` (lines 22 to 28). -/
def MockFile.WriteAt (m : MockFile) (b : List Byte) (_off : Int) :
    (Int × Option Error) × MockFile :=
  match m.writeError with
  | some err => ((0, some err), m)
  | none => ((b.length, none), { m with writeCount := wrapInt (m.writeCount + 1) })

/-- The method `MockFile.Sync` (lines 31 to 33). -/
def MockFile.Sync (m : MockFile) : Option Error × MockFile :=
  (m.syncError, m)

/-- The method `MockFile.Stat` (lines 36 to 41), with the `MockFileInfo` it
returns reduced to its size. -/
def MockFile.Stat (m : MockFile) : (Option FileInfo × Option Error) × MockFile :=
  match m.statError with
  | some err => ((none, some err), m)
  | none => ((some ⟨m.size⟩, none), m)

/-- The method `MockFile.Close` (lines 44 to 50). -/
def MockFile.Close (m : MockFile) : Option Error × MockFile :=
  match m.closeError with
  | some err => (some err, m)
  | none => (none, { m with closed := true })

/-- The method `MockFile.Remove` (lines 53 to 59). -/
def MockFile.Remove (m : MockFile) : Option Error × MockFile :=
  match m.removeError with
  | some err => (some err, m)
  | none => (none, { m with removed := true })

/-- An inode of the modelled file system: the bytes of a regular file (unused
for a directory), whether the caller may open it for writing, and whether it
is a directory. -/
structure Inode where
  data : List Byte
  writable : Bool
  isDir : Bool
  deriving DecidableEq, Repr

/-- The state of the operating system that package os acts on, as far as
`shred.go` can observe it when no other program touches the files: the
directory entries (path to inode number), the inodes, which file descriptors
are closed, and the next free inode and descriptor numbers.  Permissions on
directories are not modelled: an existing entry can always be removed. -/
structure OS where
  names : String → Option Nat
  inodes : Nat → Inode
  closed : Nat → Bool
  nextIno : Nat
  nextFd : Nat

/-- An `*os.File` that `os.OpenFile` returned: its descriptor, the name it was
opened with, the flag it was opened with and the inode it refers to. -/
structure OsFile where
  fd : Nat
  name : String
  flag : Nat
  ino : Nat
  deriving DecidableEq, Repr

/-- The constant `os.O_WRONLY` (Linux). -/
def O_WRONLY : Nat := 1

/-- The constant `os.O_CREATE` (Linux): bit 6. -/
def O_CREATE : Nat := 64

/-- The constant `os.O_TRUNC` (Linux): bit 9. -/
def O_TRUNC : Nat := 512

/-- The error `os.ErrClosed`. -/
def ErrClosed : Error := ⟨"file already closed"⟩

/-- The PathError of a missing entry. -/
def errNotExist (op name : String) : Error :=
  ⟨op ++ " " ++ name ++ ": no such file or directory"⟩

/-- The PathError of opening a directory for writing. -/
def errIsDir (name : String) : Error :=
  ⟨"open " ++ name ++ ": is a directory"⟩

/-- The PathError of opening without the permission to write. -/
def errPermission (name : String) : Error :=
  ⟨"open " ++ name ++ ": permission denied"⟩

/-- The state with descriptor number `nextFd` handed out, open. -/
def OS.newFd (os : OS) : OS :=
  { os with
    closed := fun i => if i = os.nextFd then false else os.closed i
    nextFd := os.nextFd + 1 }

/-- The state with the data of inode `ino` replaced. -/
def OS.setData (os : OS) (ino : Nat) (data : List Byte) : OS :=
  { os with
    inodes := fun i => if i = ino then { os.inodes ino with data := data } else os.inodes i }

/-- A model of `os.OpenFile(name, flag, perm)`: a missing entry is created
only with O_CREATE, a directory cannot be opened for writing, a file that the
caller may not write cannot be opened for writing, and the contents are cut to
length 0 only with O_TRUNC. -/
def osOpenFile (name : String) (flag perm : Nat) (os : OS) : Except Error OsFile × OS :=
  match os.names name with
  | none =>
    if flag.testBit 6 then
      (Except.ok ⟨os.nextFd, name, flag, os.nextIno⟩,
        { os.newFd with
          names := fun p => if p = name then some os.nextIno else os.names p
          inodes := fun i =>
            if i = os.nextIno then ⟨[], perm.testBit 7, false⟩ else os.inodes i
          nextIno := os.nextIno + 1 })
    else (Except.error (errNotExist "open" name), os)
  | some ino =>
    if (os.inodes ino).isDir ∧ flag % 4 ≠ 0 then (Except.error (errIsDir name), os)
    else if (os.inodes ino).writable = false ∧ flag % 4 ≠ 0 then
      (Except.error (errPermission name), os)
    else if flag.testBit 9 then
      (Except.ok ⟨os.nextFd, name, flag, ino⟩, (os.setData ino []).newFd)
    else (Except.ok ⟨os.nextFd, name, flag, ino⟩, os.newFd)

/-- The bytes of a file after writing `b` at offset `off`; a gap before the
offset reads as zero bytes. -/
def writeAt (data : List Byte) (off : Nat) (b : List Byte) : List Byte :=
  data.take off ++ List.replicate (off - data.length) 0 ++ b ++ data.drop (off + b.length)

/-- A model of `(*os.File).WriteAt`. -/
def OsFile.WriteAt (f : OsFile) (b : List Byte) (off : Int) (os : OS) :
    (Int × Option Error) × OS :=
  if os.closed f.fd then ((0, some ErrClosed), os)
  else if off < 0 then ((0, some ⟨"negative offset"⟩), os)
  else if f.flag % 4 = 0 then ((0, some ⟨"bad file descriptor"⟩), os)
  else ((b.length, none), os.setData f.ino (writeAt (os.inodes f.ino).data off.toNat b))

/-- A model of `(*os.File).Sync`. -/
def OsFile.Sync (f : OsFile) (os : OS) : Option Error × OS :=
  if os.closed f.fd then (some ErrClosed, os) else (none, os)

/-- A model of `(*os.File).Stat`, the FileInfo reduced to the size. -/
def OsFile.Stat (f : OsFile) (os : OS) : (Option FileInfo × Option Error) × OS :=
  if os.closed f.fd then ((none, some ErrClosed), os)
  else ((some ⟨(os.inodes f.ino).data.length⟩, none), os)

/-- A model of `(*os.File).Close`: closing twice is an error. -/
def OsFile.Close (f : OsFile) (os : OS) : Option Error × OS :=
  if os.closed f.fd then (some ErrClosed, os)
  else (none, { os with closed := fun i => if i = f.fd then true else os.closed i })

/-- The method `(*os.File).Name`: the name passed to OpenFile. -/
def OsFile.Name (f : OsFile) : String :=
  f.name

/-- A model of `os.Remove(name)`: the entry is deleted, the inode stays for
the descriptors that refer to it. -/
def osRemove (name : String) (os : OS) : Option Error × OS :=
  match os.names name with
  | none => (some (errNotExist "remove" name), os)
  | some _ => (none, { os with names := fun p => if p = name then none else os.names p })

/-- The type `RealFile` (shred.go lines 21 to 23): an embedded `*os.File`. -/
structure RealFile where
  File : OsFile

/-- The method `RealFile.Remove` (lines 26 to 28). -/
def RealFile.Remove (rf : RealFile) (os : OS) : Option Error × OS :=
  osRemove rf.File.Name os

/-- A `*RealFile` as a `File`: WriteAt, Sync, Stat and Close are promoted from
the embedded `*os.File`, Remove is the method of RealFile. -/
def RealFile.toFile (rf : RealFile) : shred.File OS where
  WriteAt := rf.File.WriteAt
  Sync := rf.File.Sync
  Stat := rf.File.Stat
  Close := rf.File.Close
  Remove := rf.Remove

/-- The function `openFile` (lines 31 to 37). -/
def openFile (name : String) (os : OS) : (Option (File OS) × Option Error) × OS :=
  match osOpenFile name O_WRONLY 0 os with
  | (Except.error err, os1) => ((none, some err), os1)
  | (Except.ok f, os1) => ((some (RealFile.mk f).toFile, none), os1)

/-- The function `ShredFile` (lines 91 to 93). -/
def ShredFile (rd : RandRead OS) (path : String) (os : OS) : Run OS :=
  Shred rd path openFile os

/-! ## The command (main.go) -/

/-- How the command ends: after logging the success message, in log.Fatalf with
its message, or in a run-time panic. -/
inductive Exit where
  | success (log : String)
  | fatal (log : String)
  | panicked
  deriving DecidableEq, Repr

/-- The observable result of running the command: how it ended, the paths it
called ShredFile on, in order, and the state it left. -/
structure MainRun where
  exit : Exit
  shredded : List String
  world : OS

/-- The function `main` (main.go lines 9 to 20) on the argument vector
`os.Args`.  Indexing `os.Args[0]` in an empty vector is a run-time panic. -/
def main (rd : RandRead OS) (osArgs : List String) (os : OS) : MainRun :=
  if osArgs.length ≠ 2 then
    match osArgs with
    | [] => ⟨Exit.panicked, [], os⟩
    | prog :: _ => ⟨Exit.fatal ("Usage: " ++ prog ++ " <file>"), [], os⟩
  else
    match osArgs with
    | [_, filePath] =>
      match (ShredFile rd filePath os).outcome with
      | Outcome.returned (some err) =>
        ⟨Exit.fatal ("Error shredding file: " ++ err.msg), [filePath],
          (ShredFile rd filePath os).world⟩
      | Outcome.returned none =>
        ⟨Exit.success "File successfully shredded", [filePath],
          (ShredFile rd filePath os).world⟩
      | Outcome.panicked => ⟨Exit.panicked, [filePath], (ShredFile rd filePath os).world⟩
    | _ => ⟨Exit.panicked, [], os⟩

/-! ## Further capabilities and states for the examples -/

/-- A capability over the call counter whose WriteAt reports 0 bytes written
with a nil error, whatever the buffer; no call fails. -/
def shortWriteFile (size : Int) : File Nat where
  WriteAt := fun _ _ c => ((0, none), c + 1)
  Sync := fun c => (none, c + 1)
  Stat := fun c => ((some ⟨size⟩, none), c + 1)
  Close := fun c => (none, c + 1)
  Remove := fun c => (none, c + 1)

/-- A capability like the counting one of size 2 on which no call fails, but
whose WriteAt reports one byte less than it was passed. -/
def oneShortFile : File Nat where
  WriteAt := fun b _ c => (((b.length : Int) - 1, none), c + 1)
  Sync := (countingFile 2 0).Sync
  Stat := (countingFile 2 0).Stat
  Close := (countingFile 2 0).Close
  Remove := (countingFile 2 0).Remove

/-- A stand-in for rand.Read in the examples of the real backend: it fills the
slice with the byte 7, reports success and leaves the file system alone. -/
def osRead : RandRead OS :=
  fun b os => ((List.replicate b.length 7, (b.length : Int), none), os)

/-- A file system for the examples: the writable file "testfile" with the 9
bytes of "some data", the file "readonly" that may not be written, and the
directory "dir"; no descriptor is open. -/
def demoOS : OS where
  names := fun p =>
    if p = "testfile" then some 0 else if p = "readonly" then some 1
    else if p = "dir" then some 2 else none
  inodes := fun i =>
    if i = 0 then ⟨[115, 111, 109, 101, 32, 100, 97, 116, 97], true, false⟩
    else if i = 1 then ⟨[115, 111, 109, 101, 32, 100, 97, 116, 97], false, false⟩
    else ⟨[], true, true⟩
  closed := fun _ => true
  nextIno := 3
  nextFd := 3

theorem overlay_length (src dst : List Byte) : (overlay src dst).length = dst.length := by
  simp [overlay]
  omega

theorem makeBytes_eq_none {size : Int} (h : makeBytes size = none) :
    size < 0 ∨ (maxAlloc : Int) < size := by
  unfold makeBytes at h
  split at h
  · assumption
  · cases h

theorem makeBytes_eq_some {size : Int} {buf : List Byte} (h : makeBytes size = some buf) :
    0 ≤ size ∧ buf.length = size.toNat := by
  unfold makeBytes at h
  split at h
  · cases h
  · cases h
    exact ⟨by omega, by simp⟩

theorem mem_splits {α : Type} (l : List α) :
    ∀ (pre : List α) (x : α) (post : List α),
      (pre, x, post) ∈ splits l ↔ l = pre ++ x :: post := by
  induction l with
  | nil => intro pre x post; simp [splits]
  | cons a l ih =>
    intro pre x post
    simp only [splits, List.mem_cons, List.mem_map, Prod.mk.injEq, Prod.exists]
    constructor
    · rintro (⟨rfl, rfl, rfl⟩ | ⟨p, y, q, hm, rfl, rfl, rfl⟩)
      · rfl
      · rw [(ih p y q).mp hm]; rfl
    · intro h
      cases pre with
      | nil =>
        simp only [List.nil_append, List.cons.injEq] at h
        exact Or.inl ⟨rfl, h.1.symm, h.2.symm⟩
      | cons b pre =>
        simp only [List.cons_append, List.cons.injEq] at h
        exact Or.inr ⟨pre, x, post, (ih pre x post).mpr h.2, by rw [h.1], rfl, rfl⟩

/-- One iteration of the loop: its WriteAt fails, or its Sync fails, or both
succeed and the loop goes on with the refilled buffer. -/
theorem passLoop_succ {σ : Type} (rd : RandRead σ) (file : File σ) (n : Nat)
    (buf : List Byte) (w : σ) :
    ∃ p : Pass, p.b.length = buf.length ∧
      ((∃ e w1, passLoop rd file (n + 1) buf w = ⟨some e, p.writeFailed e, w1⟩) ∨
        (∃ e w1, passLoop rd file (n + 1) buf w = ⟨some e, p.syncFailed e, w1⟩) ∨
        (∃ w1, passLoop rd file (n + 1) buf w =
          ⟨(passLoop rd file n p.b w1).err, p.ok ++ (passLoop rd file n p.b w1).trace,
            (passLoop rd file n p.b w1).world⟩)) := by
  simp only [passLoop]
  rcases rd buf w with ⟨⟨out, rn, rerr⟩, w1⟩
  simp only []
  rcases file.WriteAt (overlay out buf) 0 w1 with ⟨⟨wn, werr⟩, w2⟩
  refine ⟨⟨overlay out buf, rn, rerr, wn⟩, overlay_length _ _, ?_⟩
  cases werr with
  | some e => exact Or.inl ⟨e, w2, rfl⟩
  | none =>
    simp only []
    rcases file.Sync w2 with ⟨serr, w3⟩
    cases serr with
    | some e => exact Or.inr (Or.inl ⟨e, w3, rfl⟩)
    | none => exact Or.inr (Or.inr ⟨w3, rfl⟩)

/-- Every run of `Shred` follows one of the fourteen paths. -/
theorem Shred_path {σ : Type} (rd : RandRead σ) (path : String) (openFile : Opener σ)
    (w : σ) :
    Path path (Shred rd path openFile w).outcome (Shred rd path openFile w).trace := by
  unfold Shred
  rcases ho : openFile path w with ⟨⟨file, oerr⟩, w1⟩
  cases oerr with
  | some e => simp only []; exact Path.openFailed _ e
  | none =>
    cases file with
    | none => simp only []; exact Path.nilFile
    | some file =>
      simp only []
      unfold shredBody
      rcases hs : file.Stat w1 with ⟨⟨fi, serr⟩, w2⟩
      cases serr with
      | some e => simp only []; exact Path.statFailed fi e _
      | none =>
        cases fi with
        | none => simp only []; exact Path.nilInfo _
        | some fi =>
          simp only []
          cases hm : makeBytes fi.Size with
          | none => simp only []; exact Path.sizeOutOfRange fi _ (makeBytes_eq_none hm)
          | some buf =>
            obtain ⟨hsz, hlen⟩ := makeBytes_eq_some hm
            simp only [passes]
            obtain ⟨p1, hl1, h1⟩ := passLoop_succ rd file 2 buf w2
            rw [hlen] at hl1
            rcases h1 with ⟨e, v, h⟩ | ⟨e, v, h⟩ | ⟨v1, h1⟩
            · rw [h]; exact Path.write1Failed fi p1 e _ hsz hl1
            · rw [h]; exact Path.sync1Failed fi p1 e _ hsz hl1
            obtain ⟨p2, hl2, h2⟩ := passLoop_succ rd file 1 p1.b v1
            rw [hl1] at hl2
            rcases h2 with ⟨e, v, h⟩ | ⟨e, v, h⟩ | ⟨v2, h2⟩
            · rw [h1, h]; exact Path.write2Failed fi p1 p2 e _ hsz hl1 hl2
            · rw [h1, h]; exact Path.sync2Failed fi p1 p2 e _ hsz hl1 hl2
            obtain ⟨p3, hl3, h3⟩ := passLoop_succ rd file 0 p2.b v2
            rw [hl2] at hl3
            rcases h3 with ⟨e, v, h⟩ | ⟨e, v, h⟩ | ⟨v3, h3⟩
            · rw [h1, h2, h]; exact Path.write3Failed fi p1 p2 p3 e _ hsz hl1 hl2 hl3
            · rw [h1, h2, h]; exact Path.sync3Failed fi p1 p2 p3 e _ hsz hl1 hl2 hl3
            rw [h1, h2, h3]
            simp only [passLoop, List.append_nil]
            rcases hc : file.Close v3 with ⟨cerr, v4⟩
            cases cerr with
            | some e => exact Path.closeFailed fi p1 p2 p3 e _ hsz hl1 hl2 hl3
            | none =>
              simp only []
              rcases hr : file.Remove v4 with ⟨rerr, v5⟩
              cases rerr with
              | some e => exact Path.removeFailed fi p1 p2 p3 e _ hsz hl1 hl2 hl3
              | none => exact Path.completed fi p1 p2 p3 _ hsz hl1 hl2 hl3

/-- The first call of every run is the opener, recorded with its results. -/
theorem Shred_trace_head {σ : Type} (rd : RandRead σ) (path : String) (openFile : Opener σ)
    (w : σ) :
    (Shred rd path openFile w).trace.head? =
      some (Event.openFile path (openFile path w).1.1.isSome (openFile path w).1.2) := by
  unfold Shred
  rcases openFile path w with ⟨⟨file, oerr⟩, w1⟩
  cases oerr with
  | some e => cases file <;> rfl
  | none => cases file <;> rfl

/-- The deferred Close is the last call of every run whose opener returned a
File with a nil error, and it is made on that File. -/
theorem Shred_deferred_Close_last {σ : Type} (rd : RandRead σ) (path : String)
    (openFile : Opener σ) (w : σ) (f : File σ)
    (ho : (openFile path w).1 = (some f, none)) :
    ∃ w1, (Shred rd path openFile w).trace.getLast? =
        some (Event.deferredClose (f.Close w1).1) ∧
      (Shred rd path openFile w).world = (f.Close w1).2 := by
  unfold Shred
  rcases hop : openFile path w with ⟨⟨file, oerr⟩, w1⟩
  rw [hop] at ho
  simp only [Prod.mk.injEq] at ho
  obtain ⟨rfl, rfl⟩ := ho
  simp only []
  refine ⟨(shredBody rd f w1).world, ?_, rfl⟩
  rw [← List.cons_append, List.getLast?_append]
  simp

/-- Calls of a kind add up over consecutive parts of a run. -/
theorem calls_append (c : Call) (s t : List Event) :
    calls c (s ++ t) = calls c s + calls c t := by
  simp [calls]

/-- A loop of `n` iterations that ran to its end made `n` WriteAt and `n` Sync
calls, alternating, each WriteAt at offset 0 with a buffer as long as the one
the loop started with. -/
theorem passLoop_completed {σ : Type} (rd : RandRead σ) (file : File σ) (n : Nat) :
    ∀ (buf : List Byte) (w : σ), (passLoop rd file n buf w).err = none →
      calls Call.WriteAt (passLoop rd file n buf w).trace = n ∧
      calls Call.Sync (passLoop rd file n buf w).trace = n ∧
      ((passLoop rd file n buf w).trace.filter fun e =>
        e.call = Call.WriteAt ∨ e.call = Call.Sync).map Event.call = passCalls n ∧
      ∀ b off k err, Event.WriteAt b off k err ∈ (passLoop rd file n buf w).trace →
        b.length = buf.length ∧ off = 0 := by
  induction n with
  | zero => intro buf w _; simp [passLoop, calls, passCalls]
  | succ n ih =>
    intro buf w herr
    obtain ⟨p, hl, h⟩ := passLoop_succ rd file n buf w
    rcases h with ⟨e, v, h⟩ | ⟨e, v, h⟩ | ⟨v, h⟩
    · rw [h] at herr; cases herr
    · rw [h] at herr; cases herr
    · rw [h] at herr ⊢
      obtain ⟨h1, h2, h3, h4⟩ := ih p.b v herr
      refine ⟨?_, ?_, ?_, ?_⟩
      · rw [calls_append, h1]
        simp [calls, Pass.ok, Event.call]
        omega
      · rw [calls_append, h2]
        simp [calls, Pass.ok, Event.call]
        omega
      · rw [List.filter_append, List.map_append, h3]
        simp [Pass.ok, Event.call, passCalls]
      · intro b off k err hm
        simp only [Pass.ok, List.cons_append, List.nil_append, List.mem_cons] at hm
        rcases hm with hm | hm | hm | hm
        · cases hm
        · cases hm; exact ⟨hl, rfl⟩
        · cases hm
        · obtain ⟨hb, ho⟩ := h4 b off k err hm
          exact ⟨hb.trans hl, ho⟩

/-- Every call recorded by the loop was answered by the capability. -/
theorem passLoop_answered {σ : Type} (rd : RandRead σ) (f : File σ) (n : Nat) :
    ∀ (buf : List Byte) (w : σ), ∀ e ∈ (passLoop rd f n buf w).trace, Answered f e := by
  induction n with
  | zero => intro buf w e he; simp [passLoop] at he
  | succ n ih =>
    intro buf w e he
    simp only [passLoop] at he
    rcases hr : rd buf w with ⟨⟨out, rn, rerr⟩, w1⟩
    simp only [hr] at he
    rcases hw : f.WriteAt (overlay out buf) 0 w1 with ⟨⟨wn, werr⟩, w2⟩
    rw [hw] at he
    have hwa : Answered f (Event.WriteAt (overlay out buf) 0 wn werr) :=
      ⟨w1, by rw [hw], by rw [hw]⟩
    cases werr with
    | some err =>
      simp only [List.mem_cons, List.mem_singleton, List.not_mem_nil, or_false] at he
      rcases he with rfl | rfl
      · trivial
      · exact hwa
    | none =>
      try simp only [] at he
      rcases hs : f.Sync w2 with ⟨serr, w3⟩
      rw [hs] at he
      have hsa : Answered f (Event.Sync serr) := ⟨w2, by rw [hs]⟩
      cases serr with
      | some err =>
        simp only [List.mem_cons, List.mem_singleton, List.not_mem_nil, or_false] at he
        rcases he with rfl | rfl | rfl
        · trivial
        · exact hwa
        · exact hsa
      | none =>
        simp only [List.mem_cons] at he
        rcases he with rfl | rfl | rfl | he
        · trivial
        · exact hwa
        · exact hsa
        · exact ih _ _ e he

/-- Every call recorded by the body of `Shred` was answered by the capability. -/
theorem shredBody_answered {σ : Type} (rd : RandRead σ) (f : File σ) (w : σ) :
    ∀ e ∈ (shredBody rd f w).trace, Answered f e := by
  intro e he
  unfold shredBody at he
  rcases hs : f.Stat w with ⟨⟨fi, serr⟩, w1⟩
  rw [hs] at he
  have hsa : Answered f (Event.Stat fi serr) := ⟨w, by rw [hs], by rw [hs]⟩
  cases serr with
  | some err =>
    simp only [List.mem_singleton] at he
    subst he; exact hsa
  | none =>
    cases fi with
    | none =>
      simp only [List.mem_singleton] at he
      subst he; exact hsa
    | some fi =>
      try simp only [] at he
      cases hm : makeBytes fi.Size with
      | none =>
        rw [hm] at he
        simp only [List.mem_singleton] at he
        subst he; exact hsa
      | some buf =>
        rw [hm] at he
        try simp only [] at he
        have hl := passLoop_answered rd f passes buf w1
        cases hle : (passLoop rd f passes buf w1).err with
        | some err =>
          rw [hle] at he
          simp only [List.mem_cons] at he
          rcases he with rfl | he
          · exact hsa
          · exact hl e he
        | none =>
          rw [hle] at he
          try simp only [] at he
          rcases hc : f.Close (passLoop rd f passes buf w1).world with ⟨cerr, w2⟩
          rw [hc] at he
          have hca : Answered f (Event.Close cerr) := ⟨_, by rw [hc]⟩
          cases cerr with
          | some err =>
            simp only [List.mem_cons, List.mem_append, List.mem_singleton, List.not_mem_nil,
              or_false] at he
            rcases he with rfl | he | rfl
            · exact hsa
            · exact hl e he
            · exact hca
          | none =>
            try simp only [] at he
            rcases hr : f.Remove w2 with ⟨rerr, w3⟩
            rw [hr] at he
            have hra : Answered f (Event.Remove rerr) := ⟨_, by rw [hr]⟩
            cases rerr with
            | some err =>
              simp only [List.mem_cons, List.mem_append, List.mem_singleton, List.not_mem_nil,
                or_false] at he
              rcases he with rfl | he | rfl | rfl
              · exact hsa
              · exact hl e he
              · exact hca
              · exact hra
            | none =>
              simp only [List.mem_cons, List.mem_append, List.mem_singleton, List.not_mem_nil,
                or_false] at he
              rcases he with rfl | he | rfl | rfl
              · exact hsa
              · exact hl e he
              · exact hca
              · exact hra

/-- Every call recorded in a run whose opener returned the File `f` with a nil
error was answered by `f`. -/
theorem Shred_answered {σ : Type} (rd : RandRead σ) (path : String) (openFile : Opener σ)
    (w : σ) (f : File σ) (ho : (openFile path w).1 = (some f, none)) :
    ∀ e ∈ (Shred rd path openFile w).trace, Answered f e := by
  intro e he
  unfold Shred at he
  rcases hop : openFile path w with ⟨⟨file, oerr⟩, w1⟩
  rw [hop] at ho he
  simp only [Prod.mk.injEq] at ho
  obtain ⟨rfl, rfl⟩ := ho
  simp only [List.mem_cons, List.mem_append, List.not_mem_nil, or_false] at he
  rcases he with rfl | he | rfl
  · trivial
  · exact shredBody_answered rd f w1 e he
  · exact ⟨_, rfl⟩

/-- The deferred Close is no checked step. -/
theorem steps_append_deferredClose (t : List Event) (c : Option Error) :
    steps (t ++ [Event.deferredClose c]) = steps t := by
  simp [steps, Event.call, Call.isStep]

/-- The outcome of every run is the verdict of its calls. -/
theorem Shred_outcome_eq_verdict {σ : Type} (rd : RandRead σ) (path : String)
    (openFile : Opener σ) (w : σ) :
    (Shred rd path openFile w).outcome = verdict (Shred rd path openFile w).trace := by
  have h := Shred_path rd path openFile w
  generalize (Shred rd path openFile w).outcome = o at h ⊢
  generalize (Shred rd path openFile w).trace = t at h ⊢
  cases h <;>
    simp [verdict, steps, stepOrder, Event.call, Call.isStep, Event.err, opened, Pass.ok,
      Pass.writeFailed, Pass.syncFailed, List.find?_cons]

/-- The part of a list before its last element. -/
theorem eq_dropLast_of_append_singleton {α : Type} {t l : List α} {a : α}
    (h : l = t ++ [a]) : t = l.dropLast := by
  subst h
  simp

/-- The value `Shred` returns is fixed before the deferred Close is called: it
is the outcome of the body. -/
theorem Shred_outcome_eq_body {σ : Type} (rd : RandRead σ) (path : String)
    (openFile : Opener σ) (w w1 : σ) (f : File σ)
    (ho : openFile path w = ((some f, none), w1)) :
    (Shred rd path openFile w).outcome = (shredBody rd f w1).outcome := by
  unfold Shred
  rw [ho]

/-- The loop runs alike on two capabilities that differ only in the count
returned by WriteAt. -/
theorem passLoop_same_but_count {σ : Type} (rd : RandRead σ) (f g : File σ)
    (hfg : SameButCount f g) (n : Nat) :
    ∀ (buf : List Byte) (w : σ),
      (passLoop rd f n buf w).err = (passLoop rd g n buf w).err ∧
      (passLoop rd f n buf w).world = (passLoop rd g n buf w).world ∧
      (passLoop rd f n buf w).trace.map Event.eraseCount =
        (passLoop rd g n buf w).trace.map Event.eraseCount := by
  obtain ⟨hsync, hstat, hclose, hremove, hwrite⟩ := hfg
  induction n with
  | zero => intro buf w; simp [passLoop]
  | succ n ih =>
    intro buf w
    simp only [passLoop]
    rcases rd buf w with ⟨⟨out, rn, rerr⟩, w1⟩
    simp only []
    obtain ⟨he, hw⟩ := hwrite (overlay out buf) 0 w1
    rcases hf : f.WriteAt (overlay out buf) 0 w1 with ⟨⟨fn, ferr⟩, w2⟩
    rcases hg : g.WriteAt (overlay out buf) 0 w1 with ⟨⟨gn, gerr⟩, w3⟩
    rw [hf, hg] at he hw
    simp only at he hw
    subst he hw
    cases ferr with
    | some err => simp [Event.eraseCount]
    | none =>
      simp only []
      rw [← hsync]
      rcases f.Sync w2 with ⟨serr, w4⟩
      cases serr with
      | some err => simp [Event.eraseCount]
      | none =>
        obtain ⟨h1, h2, h3⟩ := ih (overlay out buf) w4
        simp [Event.eraseCount, h1, h2, h3]

/-- The body of `Shred` runs alike on two capabilities that differ only in the
count returned by WriteAt. -/
theorem shredBody_same_but_count {σ : Type} (rd : RandRead σ) (f g : File σ)
    (hfg : SameButCount f g) (w : σ) :
    (shredBody rd f w).outcome = (shredBody rd g w).outcome ∧
    (shredBody rd f w).world = (shredBody rd g w).world ∧
    (shredBody rd f w).trace.map Event.eraseCount =
      (shredBody rd g w).trace.map Event.eraseCount := by
  have hl := passLoop_same_but_count rd f g hfg passes
  obtain ⟨hsync, hstat, hclose, hremove, hwrite⟩ := hfg
  unfold shredBody
  rw [← hstat, ← hclose, ← hremove]
  rcases f.Stat w with ⟨⟨fi, serr⟩, w1⟩
  cases serr with
  | some err => simp
  | none =>
    cases fi with
    | none => simp
    | some fi =>
      simp only []
      cases makeBytes fi.Size with
      | none => simp
      | some buf =>
        simp only []
        obtain ⟨h1, h2, h3⟩ := hl buf w1
        rw [← h1, ← h2]
        cases (passLoop rd f passes buf w1).err with
        | some err => simp [h3, Event.eraseCount]
        | none =>
          simp only []
          rcases f.Close (passLoop rd f passes buf w1).world with ⟨cerr, w2⟩
          cases cerr with
          | some err => simp [h3, Event.eraseCount]
          | none =>
            simp only []
            rcases f.Remove w2 with ⟨rerr, w3⟩
            cases rerr with
            | some err => simp [h3, Event.eraseCount]
            | none => simp [h3, Event.eraseCount]

/-- The second call of a run whose opener returned a File is Stat on that File,
in the world the opener left, recorded with its results. -/
theorem Shred_trace_Stat {σ : Type} (rd : RandRead σ) (path : String) (openFile : Opener σ)
    (w w1 : σ) (f : File σ) (ho : openFile path w = ((some f, none), w1)) :
    (Shred rd path openFile w).trace.tail.head? =
      some (Event.Stat (f.Stat w1).1.1 (f.Stat w1).1.2) := by
  unfold Shred
  rw [ho]
  simp only [List.tail_cons]
  unfold shredBody
  rcases f.Stat w1 with ⟨⟨fi, serr⟩, w2⟩
  cases serr with
  | some err => simp
  | none =>
    cases fi with
    | none => simp
    | some fi =>
      simp only []
      cases makeBytes fi.Size with
      | none => simp
      | some buf =>
        simp only []
        cases (passLoop rd f passes buf w2).err with
        | some err => simp
        | none =>
          simp only []
          rcases f.Close (passLoop rd f passes buf w2).world with ⟨cerr, w3⟩
          cases cerr with
          | some err => simp
          | none =>
            simp only []
            rcases f.Remove w3 with ⟨rerr, w4⟩
            cases rerr <;> simp

/-- No call leaves the world as it is. -/
theorem Performed_nil {σ : Type} (rd : RandRead σ) (f : File σ) (w : σ) :
    Performed rd f w [] w := by
  simp [Performed]

/-- Calls performed one after the other: the first part leaves the world in
which the second part starts. -/
theorem Performed_append {σ : Type} (rd : RandRead σ) (f : File σ) (s t : List Event) :
    ∀ (w w2 : σ), Performed rd f w (s ++ t) w2 ↔
      ∃ wm, Performed rd f w s wm ∧ Performed rd f wm t w2 := by
  induction s with
  | nil => intro w w2; simp [Performed]
  | cons e s ih =>
    intro w w2
    cases e with
    | openFile name file err => simp [Performed]
    | randRead b n err =>
      rw [List.cons_append]
      simp only [Performed, ih]
      constructor
      · rintro ⟨buf, h1, h2, h3, wm, h4, h5⟩
        exact ⟨wm, ⟨buf, h1, h2, h3, h4⟩, h5⟩
      · rintro ⟨wm, ⟨buf, h1, h2, h3, h4⟩, h5⟩
        exact ⟨buf, h1, h2, h3, wm, h4, h5⟩
    | _ =>
      rw [List.cons_append]
      simp only [Performed, ih]
      constructor
      · rintro ⟨h1, wm, h2, h3⟩
        exact ⟨wm, ⟨h1, h2⟩, h3⟩
      · rintro ⟨wm, ⟨h1, h2⟩, h3⟩
        exact ⟨h1, wm, h2, h3⟩

/-- The loop performs the calls it records, and leaves the world they left. -/
theorem passLoop_performed {σ : Type} (rd : RandRead σ) (f : File σ) (n : Nat) :
    ∀ (buf : List Byte) (w : σ),
      Performed rd f w (passLoop rd f n buf w).trace (passLoop rd f n buf w).world := by
  induction n with
  | zero => intro buf w; simp [passLoop, Performed]
  | succ n ih =>
    intro buf w
    simp only [passLoop]
    have hfill : ∀ (t : List Event) (w2 : σ),
        Performed rd f (rd buf w).2 t w2 →
        Performed rd f w
          (Event.randRead (overlay (rd buf w).1.1 buf) (rd buf w).1.2.1 (rd buf w).1.2.2 :: t)
          w2 :=
      fun t w2 h => ⟨buf, (overlay_length _ _).symm, rfl, rfl, h⟩
    revert hfill
    rcases rd buf w with ⟨⟨out, rn, rerr⟩, w1⟩
    intro hfill
    simp only [] at hfill ⊢
    have hw : ∀ (t : List Event) (w2 : σ),
        Performed rd f (f.WriteAt (overlay out buf) 0 w1).2 t w2 →
        Performed rd f w1
          (Event.WriteAt (overlay out buf) 0 (f.WriteAt (overlay out buf) 0 w1).1.1
            (f.WriteAt (overlay out buf) 0 w1).1.2 :: t) w2 :=
      fun t w2 h => ⟨rfl, h⟩
    have ih1 := ih (overlay out buf)
    revert hw
    rcases f.WriteAt (overlay out buf) 0 w1 with ⟨⟨wn, werr⟩, w2⟩
    intro hw
    simp only [] at hw
    cases werr with
    | some err =>
      try simp only []
      exact hfill _ _ (hw _ _ (Performed_nil rd f _))
    | none =>
      simp only []
      have hs : ∀ (t : List Event) (w3 : σ),
          Performed rd f (f.Sync w2).2 t w3 →
          Performed rd f w2 (Event.Sync (f.Sync w2).1 :: t) w3 :=
        fun t w3 h => ⟨rfl, h⟩
      have ih2 := ih1 (f.Sync w2).2
      revert hs ih2
      rcases f.Sync w2 with ⟨serr, w3⟩
      intro hs ih2
      simp only [] at hs ih2
      cases serr with
      | some err =>
        try simp only []
        exact hfill _ _ (hw _ _ (hs _ _ (Performed_nil rd f _)))
      | none =>
        try simp only []
        exact hfill _ _ (hw _ _ (hs _ _ ih2))

/-- The body of `Shred` performs the calls it records, and leaves the world they
left. -/
theorem shredBody_performed {σ : Type} (rd : RandRead σ) (f : File σ) (w : σ) :
    Performed rd f w (shredBody rd f w).trace (shredBody rd f w).world := by
  unfold shredBody
  have hst : ∀ (t : List Event) (w2 : σ),
      Performed rd f (f.Stat w).2 t w2 →
      Performed rd f w (Event.Stat (f.Stat w).1.1 (f.Stat w).1.2 :: t) w2 :=
    fun t w2 h => ⟨rfl, h⟩
  revert hst
  rcases f.Stat w with ⟨⟨fi, serr⟩, w1⟩
  intro hst
  simp only [] at hst
  cases serr with
  | some err =>
    try simp only []
    exact hst _ _ (Performed_nil rd f _)
  | none =>
    cases fi with
    | none =>
      try simp only []
      exact hst _ _ (Performed_nil rd f _)
    | some fi =>
      simp only []
      cases makeBytes fi.Size with
      | none =>
        try simp only []
        exact hst _ _ (Performed_nil rd f _)
      | some buf =>
        simp only []
        have hl := passLoop_performed rd f passes buf w1
        generalize passLoop rd f passes buf w1 = L at hl ⊢
        rcases L with ⟨lerr, lt, lw⟩
        simp only [] at hl ⊢
        cases lerr with
        | some err =>
          try simp only []
          exact hst _ _ hl
        | none =>
          simp only []
          have hc : ∀ (t : List Event) (w3 : σ),
              Performed rd f (f.Close lw).2 t w3 →
              Performed rd f lw (Event.Close (f.Close lw).1 :: t) w3 :=
            fun t w3 h => ⟨rfl, h⟩
          revert hc
          rcases f.Close lw with ⟨cerr, w2⟩
          intro hc
          simp only [] at hc
          cases cerr with
          | some err =>
            try simp only []
            exact hst _ _ ((Performed_append rd f _ _ _ _).mpr ⟨lw, hl, hc _ _ (Performed_nil rd f _)⟩)
          | none =>
            simp only []
            have hr : ∀ (t : List Event) (w3 : σ),
                Performed rd f (f.Remove w2).2 t w3 →
                Performed rd f w2 (Event.Remove (f.Remove w2).1 :: t) w3 :=
              fun t w3 h => ⟨rfl, h⟩
            revert hr
            rcases f.Remove w2 with ⟨rerr, w3⟩
            intro hr
            simp only [] at hr
            cases rerr with
            | some err =>
              try simp only []
              exact hst _ _ ((Performed_append rd f _ _ _ _).mpr
                ⟨lw, hl, hc _ _ (hr _ _ (Performed_nil rd f _))⟩)
            | none =>
              try simp only []
              exact hst _ _ ((Performed_append rd f _ _ _ _).mpr
                ⟨lw, hl, hc _ _ (hr _ _ (Performed_nil rd f _))⟩)

/-- A run whose opener returned the File `f` with a nil error begins with the
opener call, and all its further calls were performed on `f`, from the world the
opener left to the final world of the run. -/
theorem Shred_performed {σ : Type} (rd : RandRead σ) (path : String) (openFile : Opener σ)
    (w : σ) (f : File σ) (ho : (openFile path w).1 = (some f, none)) :
    (Shred rd path openFile w).trace.head? = some (Event.openFile path true none) ∧
    Performed rd f (openFile path w).2 (Shred rd path openFile w).trace.tail
      (Shred rd path openFile w).world := by
  unfold Shred
  rcases hop : openFile path w with ⟨⟨file, oerr⟩, w1⟩
  rw [hop] at ho
  simp only [Prod.mk.injEq] at ho
  obtain ⟨rfl, rfl⟩ := ho
  simp only [List.head?_cons, List.tail_cons, true_and]
  exact (Performed_append rd f _ _ _ _).mpr
    ⟨(shredBody rd f w1).world, shredBody_performed rd f w1, rfl, Performed_nil rd f _⟩

/-- A run that returns nil was opened with a File and a nil error. -/
theorem Shred_returned_nil_opened {σ : Type} (rd : RandRead σ) (path : String)
    (openFile : Opener σ) (w : σ)
    (hok : (Shred rd path openFile w).outcome = Outcome.returned none) :
    ∃ f, (openFile path w).1 = (some f, none) := by
  unfold Shred at hok
  rcases hop : openFile path w with ⟨⟨file, oerr⟩, w1⟩
  rw [hop] at hok
  cases oerr with
  | some e => simp at hok
  | none =>
    cases file with
    | none => simp at hok
    | some f => exact ⟨f, rfl⟩

/-- Every Stat call recorded in a run whose opener returned the File `f` is the
call of `f.Stat` in the world the opener left, with its results. -/
theorem Shred_Stat_mem {σ : Type} (rd : RandRead σ) (path : String) (openFile : Opener σ)
    (w : σ) (f : File σ) (ho : (openFile path w).1 = (some f, none))
    (fi : Option FileInfo) (err : Option Error)
    (hm : Event.Stat fi err ∈ (Shred rd path openFile w).trace) :
    (f.Stat (openFile path w).2).1 = (fi, err) := by
  have hs := Shred_trace_Stat rd path openFile w (openFile path w).2 f (Prod.ext ho rfl)
  have hh := Shred_trace_head rd path openFile w
  rw [ho] at hh
  have h := Shred_path rd path openFile w
  generalize (Shred rd path openFile w).outcome = o at h
  generalize (Shred rd path openFile w).trace = t at h hs hh hm
  generalize f.Stat (openFile path w).2 = r at hs ⊢
  rcases r with ⟨⟨fi0, err0⟩, w2⟩
  cases h
  all_goals simp [opened, Pass.ok, Pass.writeFailed, Pass.syncFailed] at hm hh hs
  all_goals simp_all

/-- A run with a call after the opener was opened with a File and a nil
error. -/
theorem Shred_opened {σ : Type} (rd : RandRead σ) (path : String) (openFile : Opener σ)
    (w : σ) (hlen : 1 < (Shred rd path openFile w).trace.length) :
    ∃ f, (openFile path w).1 = (some f, none) := by
  unfold Shred at hlen
  rcases hop : openFile path w with ⟨⟨file, oerr⟩, w1⟩
  rw [hop] at hlen
  cases oerr with
  | some e => simp at hlen
  | none =>
    cases file with
    | none => simp at hlen
    | some f => exact ⟨f, rfl⟩

/-- A run that holds a call other than the opener was opened with a File and a
nil error. -/
theorem Shred_opened_of_call {σ : Type} (rd : RandRead σ) (path : String)
    (openFile : Opener σ) (w : σ) (x : Event)
    (hx : x ∈ (Shred rd path openFile w).trace) (hc : x.call ≠ Call.openFile) :
    ∃ f, (openFile path w).1 = (some f, none) := by
  apply Shred_opened rd path openFile w
  have hh := Shred_trace_head rd path openFile w
  generalize (Shred rd path openFile w).trace = t at hx hh ⊢
  match t, hx, hh with
  | [a], hx, hh =>
    simp only [List.mem_singleton] at hx
    simp only [List.head?_cons, Option.some.injEq] at hh
    subst hx
    rw [hh] at hc
    exact absurd rfl hc
  | a :: b :: t, _, _ => simp

/-! ## The claims -/

/-- C1: the checked steps of every run are an initial part of the order open,
Stat, WriteAt, Sync, WriteAt, Sync, WriteAt, Sync, Close, Remove; when a step is
the first to return an error, `Shred` returns that same error; and `Shred`
returns nil exactly when all ten steps were taken and each returned nil.  The
opener, the capability and rand.Read are arbitrary functions of the world.  The
steps are the calls that were made: the first call of the run is the opener with
the results it returned, and when it returned a File with a nil error, the
further calls of the run were performed on that File, in order, from the world
the opener left to the final world, each recorded with what it returned. -/
theorem Shred_returns_first_error {σ : Type} (rd : RandRead σ) (path : String)
    (openFile : Opener σ) (w : σ) :
    (∃ rest, (steps (Shred rd path openFile w).trace).map Event.call ++ rest = stepOrder) ∧
    (∀ pre x post err, steps (Shred rd path openFile w).trace = pre ++ x :: post →
      (∀ y ∈ pre, y.err = none) → x.err = some err →
      (Shred rd path openFile w).outcome = Outcome.returned (some err)) ∧
    ((Shred rd path openFile w).outcome = Outcome.returned none ↔
      (steps (Shred rd path openFile w).trace).map Event.call = stepOrder ∧
      ∀ x ∈ steps (Shred rd path openFile w).trace, x.err = none) ∧
    (Shred rd path openFile w).trace.head? =
      some (Event.openFile path (openFile path w).1.1.isSome (openFile path w).1.2) ∧
    ∀ f, (openFile path w).1 = (some f, none) →
      Performed rd f (openFile path w).2 (Shred rd path openFile w).trace.tail
        (Shred rd path openFile w).world := by
  refine ⟨?_, ?_, ?_, Shred_trace_head rd path openFile w,
    fun f ho => (Shred_performed rd path openFile w f ho).2⟩
  all_goals have h := Shred_path rd path openFile w
  all_goals generalize (Shred rd path openFile w).outcome = o at h ⊢
  all_goals generalize (Shred rd path openFile w).trace = t at h ⊢
  · cases h <;>
      simp [steps, stepOrder, Event.call, Call.isStep, opened, Pass.ok, Pass.writeFailed,
        Pass.syncFailed]
  · intro pre x post err hs hpre hx
    rw [← mem_splits] at hs
    cases h
    all_goals
      simp [steps, splits, Event.call, Call.isStep, opened, Pass.ok, Pass.writeFailed,
        Pass.syncFailed] at hs
    all_goals try casesm* _ ∨ _, _ ∧ _
    all_goals subst_vars
    all_goals simp_all [Event.err]
  · cases h <;>
      simp [steps, stepOrder, Event.call, Call.isStep, Event.err, opened, Pass.ok,
        Pass.writeFailed, Pass.syncFailed]

/-- C1, at a stateful capability whose fifth call, the Sync of the second pass,
is the only one to fail: `Shred` returns that error. -/
theorem Shred_returns_first_error_witness :
    (Shred fillRead "f" (countingOpener 2 5) 0).outcome =
      Outcome.returned (some callFailed) :=
  (Shred_returns_first_error fillRead "f" (countingOpener 2 5) 0).2.1
    [Event.openFile "f" true none, Event.Stat (some ⟨2⟩) none,
      Event.WriteAt [2, 2] 0 2 none, Event.Sync none, Event.WriteAt [4, 4] 0 2 none]
    (Event.Sync (some callFailed)) [] callFailed (by rfl) (by decide) (by rfl)

/-- C2: whenever Remove is called, exactly 3 WriteAt calls and exactly 3 Sync
calls were made before it and each of them returned nil; and after a Stat,
WriteAt or Sync call that returned an error the only further call is the
deferred Close, so no further pass and no Remove follows. -/
theorem Shred_removes_only_after_three_passes {σ : Type} (rd : RandRead σ) (path : String)
    (openFile : Opener σ) (w : σ) :
    (∀ pre err post, (Shred rd path openFile w).trace = pre ++ Event.Remove err :: post →
      calls Call.WriteAt pre = 3 ∧ calls Call.Sync pre = 3 ∧
      ∀ x ∈ pre, x.call = Call.WriteAt ∨ x.call = Call.Sync → x.err = none) ∧
    (∀ pre x post, (Shred rd path openFile w).trace = pre ++ x :: post →
      x.call = Call.Stat ∨ x.call = Call.WriteAt ∨ x.call = Call.Sync → x.err ≠ none →
      ∃ cerr, post = [Event.deferredClose cerr]) := by
  have h := Shred_path rd path openFile w
  generalize (Shred rd path openFile w).outcome = o at h ⊢
  generalize (Shred rd path openFile w).trace = t at h ⊢
  refine ⟨?_, ?_⟩
  · intro pre err post hs
    rw [← mem_splits] at hs
    cases h
    all_goals simp [splits, opened, Pass.ok, Pass.writeFailed, Pass.syncFailed] at hs
    all_goals try casesm* _ ∨ _, _ ∧ _
    all_goals subst_vars
    all_goals simp [calls, Event.call, Event.err]
  · intro pre x post hs hx herr
    rw [← mem_splits] at hs
    cases h
    all_goals simp [splits, opened, Pass.ok, Pass.writeFailed, Pass.syncFailed] at hs
    all_goals try casesm* _ ∨ _, _ ∧ _
    all_goals subst_vars
    all_goals simp_all [Event.call, Event.err]

/-- C2, at a capability on which no call fails: the calls before Remove hold
three WriteAt and three Sync. -/
theorem Shred_removes_only_after_three_passes_witness :
    calls Call.WriteAt
        [Event.openFile "f" true none, Event.Stat (some ⟨1⟩) none,
          Event.randRead [2] 1 none, Event.WriteAt [2] 0 1 none, Event.Sync none,
          Event.randRead [4] 1 none, Event.WriteAt [4] 0 1 none, Event.Sync none,
          Event.randRead [6] 1 none, Event.WriteAt [6] 0 1 none, Event.Sync none,
          Event.Close none] = 3 :=
  ((Shred_removes_only_after_three_passes fillRead "f" (countingOpener 1 0) 0).1
    _ none [Event.deferredClose none] (by rfl)).1

/-- C3: a run that returns nil was opened with a File, and its calls after the
opener were performed on that File, in order, from the world the opener left to
the final world: Stat, which returned a size S with 0 ≤ S and a nil error, then
`passes` = 3 times rand.Read, WriteAt and Sync, then Close, Remove and the
deferred Close.  So exactly 3 WriteAt and 3 Sync calls were made, alternating
write, sync from the first write to the last sync, and every WriteAt was passed
offset 0 and a buffer of S bytes.  The loop itself does so for every pass count
P: run to its end with P iterations it has performed P WriteAt and P Sync calls
on the File, alternating, each WriteAt at offset 0 with a buffer of the length
it started with. -/
theorem Shred_success_full_passes {σ : Type} (rd : RandRead σ) (path : String)
    (openFile : Opener σ) (w : σ)
    (hok : (Shred rd path openFile w).outcome = Outcome.returned none) :
    (∃ f fi, (openFile path w).1 = (some f, none) ∧
      (f.Stat (openFile path w).2).1 = (some fi, none) ∧ 0 ≤ fi.Size ∧
      Performed rd f (openFile path w).2 (Shred rd path openFile w).trace.tail
        (Shred rd path openFile w).world ∧
      (∃ p1 p2 p3 : Pass, ∃ cerr,
        (p1.b.length : Int) = fi.Size ∧ (p2.b.length : Int) = fi.Size ∧
        (p3.b.length : Int) = fi.Size ∧
        (Shred rd path openFile w).trace =
          [Event.openFile path true none, Event.Stat (some fi) none,
            Event.randRead p1.b p1.rn p1.rerr, Event.WriteAt p1.b 0 p1.wn none, Event.Sync none,
            Event.randRead p2.b p2.rn p2.rerr, Event.WriteAt p2.b 0 p2.wn none, Event.Sync none,
            Event.randRead p3.b p3.rn p3.rerr, Event.WriteAt p3.b 0 p3.wn none, Event.Sync none,
            Event.Close none, Event.Remove none, Event.deferredClose cerr]) ∧
      ∀ b off n err, Event.WriteAt b off n err ∈ (Shred rd path openFile w).trace →
        (b.length : Int) = fi.Size ∧ off = 0) ∧
    passes = 3 ∧
    calls Call.WriteAt (Shred rd path openFile w).trace = passes ∧
    calls Call.Sync (Shred rd path openFile w).trace = passes ∧
    (((Shred rd path openFile w).trace.filter fun e =>
      e.call = Call.WriteAt ∨ e.call = Call.Sync).map Event.call = passCalls passes) ∧
    ∀ (file : File σ) (P : Nat) (buf : List Byte) (w1 : σ),
      (passLoop rd file P buf w1).err = none →
      Performed rd file w1 (passLoop rd file P buf w1).trace (passLoop rd file P buf w1).world ∧
      calls Call.WriteAt (passLoop rd file P buf w1).trace = P ∧
      calls Call.Sync (passLoop rd file P buf w1).trace = P ∧
      ((passLoop rd file P buf w1).trace.filter fun e =>
        e.call = Call.WriteAt ∨ e.call = Call.Sync).map Event.call = passCalls P ∧
      ∀ b off k err, Event.WriteAt b off k err ∈ (passLoop rd file P buf w1).trace →
        b.length = buf.length ∧ off = 0 := by
  obtain ⟨f, ho⟩ := Shred_returned_nil_opened rd path openFile w hok
  have hp := (Shred_performed rd path openFile w f ho).2
  have hsm := Shred_Stat_mem rd path openFile w f ho
  have h := Shred_path rd path openFile w
  generalize (Shred rd path openFile w).outcome = o at h hok ⊢
  generalize (Shred rd path openFile w).trace = t at h hp hsm ⊢
  cases h <;> simp at hok
  rename_i fi p1 p2 p3 cerr hsz h1 h2 h3
  have hn : ((fi.Size.toNat : Nat) : Int) = fi.Size := Int.toNat_of_nonneg hsz
  refine ⟨⟨f, fi, ho, hsm _ _ (by simp [opened]), hsz, hp,
      ⟨p1, p2, p3, cerr, by rw [h1, hn], by rw [h2, hn], by rw [h3, hn], by simp [opened, Pass.ok]⟩,
      ?_⟩, rfl, ?_, ?_, ?_,
    fun file P buf w1 he =>
      ⟨passLoop_performed rd file P buf w1, passLoop_completed rd file P buf w1 he⟩⟩
  · intro b off n err hm
    simp [opened, Pass.ok] at hm
    rcases hm with ⟨rfl, rfl, _, _⟩ | ⟨rfl, rfl, _, _⟩ | ⟨rfl, rfl, _, _⟩ <;>
      simp_all
  · simp [calls, passes, Event.call, opened, Pass.ok]
  · simp [calls, passes, Event.call, opened, Pass.ok]
  · simp [passCalls, passes, Event.call, opened, Pass.ok]

/-- C3, at a capability of size 2 on which no call fails: three WriteAt calls,
three Sync calls, and the ten calls after the opener were performed on the
capability, whose world counts them. -/
theorem Shred_success_full_passes_witness :
    calls Call.WriteAt (Shred fillRead "f" (countingOpener 2 0) 0).trace = passes ∧
    calls Call.Sync (Shred fillRead "f" (countingOpener 2 0) 0).trace = passes ∧
    ∃ f fi, (countingOpener 2 0 "f" 0).1 = (some f, none) ∧
      (f.Stat (countingOpener 2 0 "f" 0).2).1 = (some fi, none) ∧ 0 ≤ fi.Size ∧
      Performed fillRead f (countingOpener 2 0 "f" 0).2
        (Shred fillRead "f" (countingOpener 2 0) 0).trace.tail 10 :=
  ⟨(Shred_success_full_passes fillRead "f" (countingOpener 2 0) 0 (by rfl)).2.2.1,
    (Shred_success_full_passes fillRead "f" (countingOpener 2 0) 0 (by rfl)).2.2.2.1,
    (Shred_success_full_passes fillRead "f" (countingOpener 2 0) 0 (by rfl)).1.imp
      fun _ h => h.imp fun _ h2 => ⟨h2.1, h2.2.1, h2.2.2.1, h2.2.2.2.1⟩⟩

/-- C4: whenever Remove is called, the explicit Close was called before it and
returned nil; and when the explicit Close returns an error, Remove is not called
at all. -/
theorem Shred_remove_only_after_Close {σ : Type} (rd : RandRead σ) (path : String)
    (openFile : Opener σ) (w : σ) :
    (∀ pre err post, (Shred rd path openFile w).trace = pre ++ Event.Remove err :: post →
      Event.Close none ∈ pre) ∧
    (∀ err, Event.Close (some err) ∈ (Shred rd path openFile w).trace →
      calls Call.Remove (Shred rd path openFile w).trace = 0) := by
  have h := Shred_path rd path openFile w
  generalize (Shred rd path openFile w).outcome = o at h ⊢
  generalize (Shred rd path openFile w).trace = t at h ⊢
  refine ⟨?_, ?_⟩
  · intro pre err post hs
    rw [← mem_splits] at hs
    cases h
    all_goals simp [splits, opened, Pass.ok, Pass.writeFailed, Pass.syncFailed] at hs
    all_goals try casesm* _ ∨ _, _ ∧ _
    all_goals subst_vars
    all_goals simp
  · intro err hm
    cases h
    all_goals simp [opened, Pass.ok, Pass.writeFailed, Pass.syncFailed] at hm
    all_goals simp [calls, Event.call, opened, Pass.ok]

/-- C4, at a capability whose eighth call, the explicit Close, fails: Remove is
not called. -/
theorem Shred_remove_only_after_Close_witness :
    calls Call.Remove (Shred fillRead "f" (countingOpener 2 8) 0).trace = 0 :=
  (Shred_remove_only_after_Close fillRead "f" (countingOpener 2 8) 0).2 callFailed
    (by decide)

/-- C5: when the opener returns a nil error, every run in which `Shred` returns
has called Close at least once; and when the opener returned a File with the
nil error, Close is called on that File as the last call of the run, also when
the run panics, whichever of Stat, WriteAt, Sync, Close or Remove failed. -/
theorem Shred_closes_on_every_exit {σ : Type} (rd : RandRead σ) (path : String)
    (openFile : Opener σ) (w : σ) :
    (∀ err, (openFile path w).1.2 = none →
      (Shred rd path openFile w).outcome = Outcome.returned err →
      1 ≤ (Shred rd path openFile w).trace.countP Event.isClose) ∧
    (∀ f, (openFile path w).1 = (some f, none) →
      1 ≤ (Shred rd path openFile w).trace.countP Event.isClose ∧
      ∃ w1, (Shred rd path openFile w).trace.getLast? =
          some (Event.deferredClose (f.Close w1).1) ∧
        (Shred rd path openFile w).world = (f.Close w1).2) := by
  have h := Shred_path rd path openFile w
  have hh := Shred_trace_head rd path openFile w
  refine ⟨?_, ?_⟩
  · intro err ho hr
    rw [ho] at hh
    generalize (Shred rd path openFile w).outcome = o at h hr
    generalize (Shred rd path openFile w).trace = t at h hh ⊢
    cases h <;> simp at hh hr <;>
      simp [Event.isClose, Event.call, opened, Pass.ok, Pass.writeFailed, Pass.syncFailed,
        List.countP_cons]
  · intro f ho
    refine ⟨?_, Shred_deferred_Close_last rd path openFile w f ho⟩
    rw [ho] at hh
    generalize (Shred rd path openFile w).outcome = o at h
    generalize (Shred rd path openFile w).trace = t at h hh ⊢
    cases h <;> simp at hh <;>
      simp [Event.isClose, Event.call, opened, Pass.ok, Pass.writeFailed, Pass.syncFailed,
        List.countP_cons]

/-- C5, at a capability whose first call, Stat, fails. -/
theorem Shred_closes_on_every_exit_witness :
    1 ≤ (Shred fillRead "f" (countingOpener 2 1) 0).trace.countP Event.isClose :=
  (Shred_closes_on_every_exit fillRead "f" (countingOpener 2 1) 0).1 (some callFailed)
    (by rfl) (by rfl)

/-- C6: when the opener returns a non-nil error, `Shred` returns that error, the
opener is the only call of the run, and the world is left as the opener left it:
no method of any capability ran, whether or not the opener also returned a
File. -/
theorem Shred_open_error {σ : Type} (rd : RandRead σ) (path : String)
    (openFile : Opener σ) (w : σ) (err : Error)
    (ho : (openFile path w).1.2 = some err) :
    (Shred rd path openFile w).outcome = Outcome.returned (some err) ∧
    (Shred rd path openFile w).trace =
      [Event.openFile path (openFile path w).1.1.isSome (some err)] ∧
    (Shred rd path openFile w).world = (openFile path w).2 := by
  unfold Shred
  rcases hop : openFile path w with ⟨⟨file, oerr⟩, w1⟩
  rw [hop] at ho
  simp only at ho
  subst ho
  cases file <;> simp

/-- C6, at an opener that returns a File together with its error. -/
theorem Shred_open_error_witness :
    (Shred fillRead "nonexistentfile" failingOpener 0).outcome =
      Outcome.returned (some ⟨"file does not exist"⟩) ∧
    (Shred fillRead "nonexistentfile" failingOpener 0).trace =
      [Event.openFile "nonexistentfile" true (some ⟨"file does not exist"⟩)] ∧
    (Shred fillRead "nonexistentfile" failingOpener 0).world = 0 :=
  Shred_open_error fillRead "nonexistentfile" failingOpener 0 ⟨"file does not exist"⟩ (by rfl)

/-- C7: when a WriteAt returns an error, in whichever of the three passes,
`Shred` returns that error, the only call after the failed write is the deferred
Close, and the run holds no explicit Close and no Remove; the passes before it
are complete, one Sync for each earlier WriteAt. -/
theorem Shred_write_error {σ : Type} (rd : RandRead σ) (path : String)
    (openFile : Opener σ) (w : σ) (pre post : List Event) (b : List Byte) (off n : Int)
    (err : Error)
    (hs : (Shred rd path openFile w).trace = pre ++ Event.WriteAt b off n (some err) :: post) :
    (Shred rd path openFile w).outcome = Outcome.returned (some err) ∧
    (∃ cerr, post = [Event.deferredClose cerr]) ∧
    calls Call.WriteAt pre < 3 ∧ calls Call.Sync pre = calls Call.WriteAt pre ∧
    calls Call.Close (Shred rd path openFile w).trace = 0 ∧
    calls Call.Remove (Shred rd path openFile w).trace = 0 := by
  have h := Shred_path rd path openFile w
  generalize (Shred rd path openFile w).outcome = o at h ⊢
  generalize (Shred rd path openFile w).trace = t at h hs ⊢
  have hs2 := hs
  rw [← mem_splits] at hs2
  cases h
  all_goals simp [splits, opened, Pass.ok, Pass.writeFailed, Pass.syncFailed] at hs2
  all_goals try casesm* _ ∨ _, _ ∧ _
  all_goals subst_vars
  all_goals simp [calls, Event.call, opened, Pass.ok, Pass.writeFailed]

/-- C7, at a capability whose fourth call, the WriteAt of the second pass, fails. -/
theorem Shred_write_error_witness :
    (Shred fillRead "f" (countingOpener 2 4) 0).outcome =
      Outcome.returned (some callFailed) ∧
    (∃ cerr, [Event.deferredClose none] = [Event.deferredClose cerr]) ∧
    calls Call.WriteAt
      [Event.openFile "f" true none, Event.Stat (some ⟨2⟩) none,
        Event.randRead [2, 2] 2 none, Event.WriteAt [2, 2] 0 2 none, Event.Sync none,
        Event.randRead [4, 4] 2 none] < 3 ∧
    calls Call.Sync
      [Event.openFile "f" true none, Event.Stat (some ⟨2⟩) none,
        Event.randRead [2, 2] 2 none, Event.WriteAt [2, 2] 0 2 none, Event.Sync none,
        Event.randRead [4, 4] 2 none] =
      calls Call.WriteAt
        [Event.openFile "f" true none, Event.Stat (some ⟨2⟩) none,
          Event.randRead [2, 2] 2 none, Event.WriteAt [2, 2] 0 2 none, Event.Sync none,
          Event.randRead [4, 4] 2 none] ∧
    calls Call.Close (Shred fillRead "f" (countingOpener 2 4) 0).trace = 0 ∧
    calls Call.Remove (Shred fillRead "f" (countingOpener 2 4) 0).trace = 0 :=
  Shred_write_error fillRead "f" (countingOpener 2 4) 0 _ _ _ _ _ _ (by rfl)

/-- C8: when a Sync returns an error, in whichever of the three passes,
`Shred` returns that error, the only call after the failed Sync is the deferred
Close, so that no WriteAt and no Sync follows, and Remove is not called in the
run. -/
theorem Shred_sync_error {σ : Type} (rd : RandRead σ) (path : String)
    (openFile : Opener σ) (w : σ) (pre post : List Event) (err : Error)
    (hs : (Shred rd path openFile w).trace = pre ++ Event.Sync (some err) :: post) :
    (Shred rd path openFile w).outcome = Outcome.returned (some err) ∧
    (∃ cerr, post = [Event.deferredClose cerr]) ∧
    calls Call.WriteAt post = 0 ∧ calls Call.Sync post = 0 ∧
    calls Call.Remove (Shred rd path openFile w).trace = 0 := by
  have h := Shred_path rd path openFile w
  generalize (Shred rd path openFile w).outcome = o at h ⊢
  generalize (Shred rd path openFile w).trace = t at h hs ⊢
  have hs2 := hs
  rw [← mem_splits] at hs2
  cases h
  all_goals simp [splits, opened, Pass.ok, Pass.writeFailed, Pass.syncFailed] at hs2
  all_goals try casesm* _ ∨ _, _ ∧ _
  all_goals subst_vars
  all_goals simp [calls, Event.call, opened, Pass.ok, Pass.syncFailed]

/-- C8, at a capability whose third call, the Sync of the first pass, fails. -/
theorem Shred_sync_error_witness :
    (Shred fillRead "f" (countingOpener 2 3) 0).outcome =
      Outcome.returned (some callFailed) ∧
    (∃ cerr, [Event.deferredClose none] = [Event.deferredClose cerr]) ∧
    calls Call.WriteAt [Event.deferredClose none] = 0 ∧
    calls Call.Sync [Event.deferredClose none] = 0 ∧
    calls Call.Remove (Shred fillRead "f" (countingOpener 2 3) 0).trace = 0 :=
  Shred_sync_error fillRead "f" (countingOpener 2 3) 0
    [Event.openFile "f" true none, Event.Stat (some ⟨2⟩) none,
      Event.randRead [2, 2] 2 none, Event.WriteAt [2, 2] 0 2 none]
    [Event.deferredClose none] callFailed (by rfl)

/-- C9: when the opener returns a File with a nil error, the run holds exactly
one Stat call; it is the first call after the opener, the call of Stat on that
File in the world the opener left, recorded with what it returned, and all the
calls after the opener were performed on the File in order.  Every WriteAt comes
after that Stat call, and the buffer passed to every WriteAt has the length that
this call of Stat on the File returned as the size. -/
theorem Shred_stats_once {σ : Type} (rd : RandRead σ) (path : String)
    (openFile : Opener σ) (w : σ) (f : File σ)
    (ho : (openFile path w).1 = (some f, none)) :
    calls Call.Stat (Shred rd path openFile w).trace = 1 ∧
    (Shred rd path openFile w).trace.tail.head? =
      some (Event.Stat (f.Stat (openFile path w).2).1.1 (f.Stat (openFile path w).2).1.2) ∧
    Performed rd f (openFile path w).2 (Shred rd path openFile w).trace.tail
      (Shred rd path openFile w).world ∧
    ∀ pre b off n err post,
      (Shred rd path openFile w).trace = pre ++ Event.WriteAt b off n err :: post →
      calls Call.Stat pre = 1 ∧
      ∃ fi, (f.Stat (openFile path w).2).1 = (some fi, none) ∧
        Event.Stat (some fi) none ∈ pre ∧ (b.length : Int) = fi.Size := by
  have hp := (Shred_performed rd path openFile w f ho).2
  have hs1 := Shred_trace_Stat rd path openFile w (openFile path w).2 f (Prod.ext ho rfl)
  have hsm := Shred_Stat_mem rd path openFile w f ho
  have h := Shred_path rd path openFile w
  have hh := Shred_trace_head rd path openFile w
  rw [ho] at hh
  generalize (Shred rd path openFile w).outcome = o at h
  generalize (Shred rd path openFile w).trace = t at h hh hp hs1 hsm ⊢
  refine ⟨?_, hs1, hp, ?_⟩
  · cases h <;> simp at hh <;>
      simp [calls, Event.call, opened, Pass.ok, Pass.writeFailed, Pass.syncFailed]
  · intro pre b off n err post hs
    have hold : calls Call.Stat pre = 1 ∧
        ∃ fi, Event.Stat (some fi) none ∈ pre ∧ (b.length : Int) = fi.Size := by
      rw [← mem_splits] at hs
      clear hsm hp hs1 hh
      cases h
      all_goals simp [splits, opened, Pass.ok, Pass.writeFailed, Pass.syncFailed] at hs
      all_goals try casesm* _ ∨ _, _ ∧ _
      all_goals subst_vars
      all_goals simp [calls, Event.call]
      all_goals omega
    obtain ⟨hc, fi, hm, hl⟩ := hold
    exact ⟨hc, fi, hsm _ _ (by rw [hs]; exact List.mem_append_left _ hm), hm, hl⟩

/-- C9, at a capability of size 2 on which no call fails: one Stat call, the
call that returned the size 2. -/
theorem Shred_stats_once_witness :
    calls Call.Stat (Shred fillRead "f" (countingOpener 2 0) 0).trace = 1 ∧
    (Shred fillRead "f" (countingOpener 2 0) 0).trace.tail.head? =
      some (Event.Stat (some ⟨2⟩) none) :=
  ⟨(Shred_stats_once fillRead "f" (countingOpener 2 0) 0 (countingFile 2 0) (by rfl)).1,
    (Shred_stats_once fillRead "f" (countingOpener 2 0) 0 (countingFile 2 0) (by rfl)).2.1⟩

/-- C11: for a capability whose Stat reports size 0 and whose calls all return
nil errors, the run is open, Stat, three times rand.Read, WriteAt with an empty
buffer at offset 0 and Sync, then Close, Remove and the deferred Close, and
`Shred` returns nil: the empty file takes the same path as any other.  The
thirteen calls after the opener were performed on the capability and on
rand.Read, in this order, from the world the opener left to the final world,
each recorded with what it returned. -/
theorem Shred_zero_byte_file {σ : Type} (rd : RandRead σ) (path : String)
    (openFile : Opener σ) (w : σ) (f : File σ)
    (ho : (openFile path w).1 = (some f, none))
    (hstat : ∀ w1, (f.Stat w1).1 = (some ⟨0⟩, none))
    (hwrite : ∀ b off w1, (f.WriteAt b off w1).1.2 = none)
    (hsync : ∀ w1, (f.Sync w1).1 = none)
    (hclose : ∀ w1, (f.Close w1).1 = none)
    (hremove : ∀ w1, (f.Remove w1).1 = none) :
    (Shred rd path openFile w).outcome = Outcome.returned none ∧
    Performed rd f (openFile path w).2 (Shred rd path openFile w).trace.tail
      (Shred rd path openFile w).world ∧
    ∃ p1 p2 p3 : Pass, p1.b = [] ∧ p2.b = [] ∧ p3.b = [] ∧
      (Shred rd path openFile w).trace =
        [Event.openFile path true none, Event.Stat (some ⟨0⟩) none,
          Event.randRead [] p1.rn p1.rerr, Event.WriteAt [] 0 p1.wn none, Event.Sync none,
          Event.randRead [] p2.rn p2.rerr, Event.WriteAt [] 0 p2.wn none, Event.Sync none,
          Event.randRead [] p3.rn p3.rerr, Event.WriteAt [] 0 p3.wn none, Event.Sync none,
          Event.Close none, Event.Remove none, Event.deferredClose none] := by
  have hp := (Shred_performed rd path openFile w f ho).2
  have h := Shred_path rd path openFile w
  have ha := Shred_answered rd path openFile w f ho
  have hh := Shred_trace_head rd path openFile w
  rw [ho] at hh
  generalize (Shred rd path openFile w).outcome = o at h ⊢
  generalize (Shred rd path openFile w).trace = t at h ha hh hp ⊢
  refine ⟨?_, hp, ?_⟩
  all_goals clear hp
  all_goals cases h
  case refine_1.completed => rfl
  case refine_2.completed fi p1 p2 p3 cerr hsz h1 h2 h3 =>
    simp [Answered, opened, Pass.ok, hstat, hclose] at ha
    obtain ⟨⟨hfi, _⟩, _, _, hc⟩ := ha
    subst hfi
    simp only [Int.toNat_zero, List.length_eq_zero] at h1 h2 h3
    refine ⟨p1, p2, p3, h1, h2, h3, ?_⟩
    simp [opened, Pass.ok, h1, h2, h3]
    obtain ⟨_, _, _, _, _, _, _, hc1⟩ := hc
    exact hc1.symm
  case refine_1.sizeOutOfRange fi cerr hneg =>
    simp [Answered, opened, hstat] at ha
    obtain ⟨⟨hfi, _⟩, _⟩ := ha
    subst hfi
    simp [maxAlloc] at hneg
  case refine_2.sizeOutOfRange fi cerr hneg =>
    simp [Answered, opened, hstat] at ha
    obtain ⟨⟨hfi, _⟩, _⟩ := ha
    subst hfi
    simp [maxAlloc] at hneg
  all_goals
    simp [Answered, opened, Pass.ok, Pass.writeFailed, Pass.syncFailed, hstat, hwrite, hsync,
      hclose, hremove] at ha hh

/-- C11, at the counting capability with size 0 on which no call fails: `Shred`
returns nil, and the thirteen calls after the opener were performed on the
capability and on rand.Read, ten of them on the capability, whose world counts
them. -/
theorem Shred_zero_byte_file_witness :
    (Shred fillRead "f" (countingOpener 0 0) 0).outcome = Outcome.returned none ∧
    Performed fillRead (countingFile 0 0) 0
      (Shred fillRead "f" (countingOpener 0 0) 0).trace.tail 10 :=
  ⟨(Shred_zero_byte_file fillRead "f" (countingOpener 0 0) 0 (countingFile 0 0) (by rfl)
    (fun _ => by rfl) (fun _ _ _ => by simp [countingFile]) (fun _ => by rfl)
    (fun _ => by rfl) (fun _ => by rfl)).1,
   (Shred_zero_byte_file fillRead "f" (countingOpener 0 0) 0 (countingFile 0 0) (by rfl)
    (fun _ => by rfl) (fun _ _ _ => by simp [countingFile]) (fun _ => by rfl)
    (fun _ => by rfl) (fun _ => by rfl)).2.1⟩

/-- C15: for a path with no entry, `ShredFile` returns the error of the open
step, a non-nil error, having made no other call, and leaves the state of the
file system as it was; `openFile` passes O_WRONLY alone, and with O_CREATE
added `os.OpenFile` would have created an entry at the path. -/
theorem ShredFile_missing_path (rd : RandRead OS) (path : String) (os : OS)
    (hnone : os.names path = none) :
    (ShredFile rd path os).outcome = Outcome.returned (some (errNotExist "open" path)) ∧
    (ShredFile rd path os).trace =
      [Event.openFile path false (some (errNotExist "open" path))] ∧
    (ShredFile rd path os).world = os ∧
    (osOpenFile path (O_WRONLY ||| O_CREATE) 0 os).2.names path ≠ none := by
  have ho : openFile path os = ((none, some (errNotExist "open" path)), os) := by
    simp [openFile, osOpenFile, hnone, O_WRONLY, Nat.testBit]
  refine ⟨?_, ?_, ?_, ?_⟩
  · simp [ShredFile, Shred, ho]
  · simp [ShredFile, Shred, ho]
  · simp [ShredFile, Shred, ho]
  · simp [osOpenFile, hnone, O_WRONLY, O_CREATE, Nat.testBit]

/-- C15, at the path "nonexistentfile" of the example file system. -/
theorem ShredFile_missing_path_witness :
    (ShredFile osRead "nonexistentfile" demoOS).outcome =
      Outcome.returned (some (errNotExist "open" "nonexistentfile")) :=
  (ShredFile_missing_path osRead "nonexistentfile" demoOS (by decide)).1

/-- C16: with an argument vector whose length is not 2, `main` calls ShredFile
on no path and leaves the state alone, and when the vector holds the program
name it ends in log.Fatalf with the usage message; with the program name and
one path, `main` calls ShredFile on that path once, and it logs success exactly
when ShredFile returned nil, ending in log.Fatalf with the error otherwise. -/
theorem main_argument_handling (rd : RandRead OS) (os : OS) :
    (∀ osArgs : List String, osArgs.length ≠ 2 →
      (main rd osArgs os).shredded = [] ∧ (main rd osArgs os).world = os ∧
      ∀ prog rest, osArgs = prog :: rest →
        (main rd osArgs os).exit = Exit.fatal ("Usage: " ++ prog ++ " <file>")) ∧
    (∀ prog path : String,
      (main rd [prog, path] os).shredded = [path] ∧
      (main rd [prog, path] os).world = (ShredFile rd path os).world ∧
      ((main rd [prog, path] os).exit = Exit.success "File successfully shredded" ↔
        (ShredFile rd path os).outcome = Outcome.returned none) ∧
      ∀ err, (ShredFile rd path os).outcome = Outcome.returned (some err) →
        (main rd [prog, path] os).exit = Exit.fatal ("Error shredding file: " ++ err.msg)) ∧
    (∀ osArgs : List String, (main rd osArgs os).shredded ≠ [] ↔ osArgs.length = 2) := by
  refine ⟨?_, ?_, ?_⟩
  · intro osArgs hlen
    cases osArgs with
    | nil => simp [main]
    | cons prog rest =>
      simp only [List.length_cons, ne_eq, Nat.add_left_eq_self, Nat.succ.injEq] at hlen
      have hr : ¬ rest.length = 1 := by omega
      simp [main, hr]
  · intro prog path
    simp only [main, List.length_cons, List.length_nil, ne_eq, not_true_eq_false, if_false]
    cases h : (ShredFile rd path os).outcome with
    | panicked => simp
    | returned e => cases e <;> simp
  · intro osArgs
    by_cases hlen : osArgs.length = 2
    · match osArgs, hlen with
      | [prog, path], _ =>
        simp only [main, List.length_cons, List.length_nil, ne_eq, not_true_eq_false, if_false]
        cases h : (ShredFile rd path os).outcome with
        | panicked => simp
        | returned e => cases e <;> simp
    · cases osArgs with
      | nil => simp [main]
      | cons prog rest =>
      simp only [List.length_cons, ne_eq, Nat.add_left_eq_self, Nat.succ.injEq] at hlen
      have hr : ¬ rest.length = 1 := by omega
      simp [main, hr]

/-- C16, at the vectors of TestMainArgumentHandling: the program name alone,
and the program name with the path of an existing writable file. -/
theorem main_argument_handling_witness :
    (main osRead ["main"] demoOS).exit = Exit.fatal "Usage: main <file>" ∧
    (main osRead ["main", "testfile"] demoOS).shredded = ["testfile"] :=
  ⟨((main_argument_handling osRead demoOS).1 ["main"] (by decide)).2.2 "main" [] rfl,
    ((main_argument_handling osRead demoOS).2.1 "main" "testfile").1⟩

/-- C17: when the opener returned a File with a nil error, the calls of the run
after the opener were performed on that File, in order, from the world the
opener left to the final world, the explicit and the deferred Close both as calls
of its method Close.  A run that makes the explicit Close was opened with a File
and calls Close exactly twice; a run in which Stat, a WriteAt or a Sync returned
an error was opened with a File and calls Close exactly once; before a Remove
call lies exactly one Close call and after it exactly the deferred Close; and a
run that returns nil was opened with a File, on which the methods called are
Stat, three times WriteAt and Sync, Close, Remove, Close. -/
theorem Shred_Close_calls {σ : Type} (rd : RandRead σ) (path : String)
    (openFile : Opener σ) (w : σ) :
    (∀ f, (openFile path w).1 = (some f, none) →
      Performed rd f (openFile path w).2 (Shred rd path openFile w).trace.tail
        (Shred rd path openFile w).world) ∧
    (∀ cerr, Event.Close cerr ∈ (Shred rd path openFile w).trace →
      (∃ f, (openFile path w).1 = (some f, none)) ∧
      (Shred rd path openFile w).trace.countP Event.isClose = 2) ∧
    (∀ x ∈ (Shred rd path openFile w).trace,
      x.call = Call.Stat ∨ x.call = Call.WriteAt ∨ x.call = Call.Sync → x.err ≠ none →
      (∃ f, (openFile path w).1 = (some f, none)) ∧
      (Shred rd path openFile w).trace.countP Event.isClose = 1) ∧
    (∀ pre err post, (Shred rd path openFile w).trace = pre ++ Event.Remove err :: post →
      (∃ f, (openFile path w).1 = (some f, none)) ∧
      pre.countP Event.isClose = 1 ∧ ∃ cerr, post = [Event.deferredClose cerr]) ∧
    ((Shred rd path openFile w).outcome = Outcome.returned none →
      (∃ f, (openFile path w).1 = (some f, none)) ∧
      methodCalls (Shred rd path openFile w).trace =
        [Method.Stat, Method.WriteAt, Method.Sync, Method.WriteAt, Method.Sync,
          Method.WriteAt, Method.Sync, Method.Close, Method.Remove, Method.Close]) := by
  have h := Shred_path rd path openFile w
  have hop := Shred_opened_of_call rd path openFile w
  have hnil := Shred_returned_nil_opened rd path openFile w
  generalize (Shred rd path openFile w).outcome = o at h hnil ⊢
  refine ⟨fun f ho => (Shred_performed rd path openFile w f ho).2, ?_, ?_, ?_, ?_⟩
  all_goals generalize (Shred rd path openFile w).trace = t at h hop ⊢
  · intro cerr hm
    refine ⟨hop _ hm (by simp [Event.call]), ?_⟩
    clear hop hnil
    cases h
    all_goals simp [opened, Pass.ok, Pass.writeFailed, Pass.syncFailed] at hm
    all_goals
      simp [Event.isClose, Event.call, opened, Pass.ok, List.countP_cons]
  · intro x hx hc he
    refine ⟨hop x hx (by rcases hc with hc | hc | hc <;> simp [hc]), ?_⟩
    clear hop hnil
    cases h
    all_goals simp [opened, Pass.ok, Pass.writeFailed, Pass.syncFailed] at hx
    all_goals try casesm* _ ∨ _
    all_goals subst_vars
    all_goals
      simp_all [Event.isClose, Event.call, Event.err, opened, Pass.ok, Pass.writeFailed,
        Pass.syncFailed, List.countP_cons]
  · intro pre err post hs
    refine ⟨hop (Event.Remove err) (by rw [hs]; simp) (by simp [Event.call]), ?_⟩
    clear hop hnil
    rw [← mem_splits] at hs
    cases h
    all_goals simp [splits, opened, Pass.ok, Pass.writeFailed, Pass.syncFailed] at hs
    all_goals try casesm* _ ∨ _, _ ∧ _
    all_goals subst_vars
    all_goals simp [Event.isClose, Event.call, List.countP_cons]
  · intro ho
    refine ⟨hnil ho, ?_⟩
    cases h <;> simp at ho
    simp [methodCalls, Call.method, Event.call, opened, Pass.ok]

/-- C17, at the counting capability on which no call fails: the methods called
are Stat, three times WriteAt and Sync, Close, Remove, Close, and the calls
after the opener were performed on the capability, whose world counts ten
calls. -/
theorem Shred_Close_calls_witness :
    methodCalls (Shred fillRead "f" (countingOpener 2 0) 0).trace =
      [Method.Stat, Method.WriteAt, Method.Sync, Method.WriteAt, Method.Sync,
        Method.WriteAt, Method.Sync, Method.Close, Method.Remove, Method.Close] ∧
    Performed fillRead (countingFile 2 0) 0
      (Shred fillRead "f" (countingOpener 2 0) 0).trace.tail 10 :=
  ⟨((Shred_Close_calls fillRead "f" (countingOpener 2 0) 0).2.2.2.2 (by rfl)).2,
    (Shred_Close_calls fillRead "f" (countingOpener 2 0) 0).1 (countingFile 2 0) rfl⟩

/-- C18: two runs of `Shred`, on any capabilities, whose calls and results agree
up to the error returned by the deferred Close end alike; the outcome of a run
is that of the body, computed before the deferred Close is called; a run whose
deferred Close fails after the explicit Close and Remove returned nil returns
nil, and a run in which a checked step and the deferred Close both fail returns
the error of the step. -/
theorem Shred_ignores_deferred_Close {σ τ : Type} (rd : RandRead σ) (path : String)
    (openFile : Opener σ) (w : σ) (rd2 : RandRead τ) (path2 : String)
    (openFile2 : Opener τ) (v : τ) :
    (∀ t c1 c2, (Shred rd path openFile w).trace = t ++ [Event.deferredClose c1] →
      (Shred rd2 path2 openFile2 v).trace = t ++ [Event.deferredClose c2] →
      (Shred rd path openFile w).outcome = (Shred rd2 path2 openFile2 v).outcome) ∧
    (∀ f w1, openFile path w = ((some f, none), w1) →
      (Shred rd path openFile w).outcome = (shredBody rd f w1).outcome) ∧
    (∀ t err, (Shred rd path openFile w).trace = t ++ [Event.deferredClose (some err)] →
      Event.Remove none ∈ t → (Shred rd path openFile w).outcome = Outcome.returned none) ∧
    (∀ t err x serr,
      (Shred rd path openFile w).trace = t ++ [Event.deferredClose (some err)] →
      x ∈ steps t → x.err = some serr →
      (Shred rd path openFile w).outcome = Outcome.returned (some serr)) := by
  refine ⟨?_, fun f w1 ho => Shred_outcome_eq_body rd path openFile w w1 f ho, ?_, ?_⟩
  · intro t c1 c2 e1 e2
    rw [Shred_outcome_eq_verdict rd, Shred_outcome_eq_verdict rd2, e1, e2]
    simp only [verdict, steps_append_deferredClose]
  · have h := Shred_path rd path openFile w
    generalize (Shred rd path openFile w).outcome = o at h ⊢
    generalize (Shred rd path openFile w).trace = t1 at h ⊢
    intro t err e1 hm
    have ht := eq_dropLast_of_append_singleton e1
    subst ht
    cases h <;> simp [opened, Pass.ok, Pass.writeFailed, Pass.syncFailed] at hm ⊢
  · have h := Shred_path rd path openFile w
    generalize (Shred rd path openFile w).outcome = o at h ⊢
    generalize (Shred rd path openFile w).trace = t1 at h ⊢
    intro t err x serr e1 hm hx
    have ht := eq_dropLast_of_append_singleton e1
    subst ht
    cases h
    all_goals
      simp [steps, Event.call, Call.isStep, opened, Pass.ok, Pass.writeFailed,
        Pass.syncFailed] at hm
    all_goals try casesm* _ ∨ _
    all_goals subst_vars
    all_goals simp_all [Event.err]

/-- C18, at the counting capabilities whose tenth call, the deferred Close,
fails and on which no call fails: the calls before the deferred Close are the
same, and so is what `Shred` returns. -/
theorem Shred_ignores_deferred_Close_witness :
    (Shred fillRead "f" (countingOpener 2 10) 0).outcome =
      (Shred fillRead "f" (countingOpener 2 0) 0).outcome :=
  (Shred_ignores_deferred_Close fillRead "f" (countingOpener 2 10) 0
    fillRead "f" (countingOpener 2 0) 0).1
    (Shred fillRead "f" (countingOpener 2 0) 0).trace.dropLast (some callFailed) none
    (by rfl) (by rfl)

/-- C19: for two capabilities that differ only in the count n returned by
WriteAt, `Shred` returns the same value, leaves the same world and makes the same
calls with the same arguments and results, the counts apart; the call after a
WriteAt is the Sync of that pass exactly when the WriteAt returned a nil error,
whatever the count was; and on a capability whose WriteAt reports 0 bytes written
with a nil error, `Shred` returns nil and has called Remove. -/
theorem Shred_ignores_write_count {σ : Type} (rd : RandRead σ) (path : String)
    (openFile openFile2 : Opener σ) (w w1 : σ) (f g : File σ)
    (ho : openFile path w = ((some f, none), w1))
    (ho2 : openFile2 path w = ((some g, none), w1))
    (hfg : SameButCount f g) :
    (Shred rd path openFile w).outcome = (Shred rd path openFile2 w).outcome ∧
    (Shred rd path openFile w).world = (Shred rd path openFile2 w).world ∧
    (Shred rd path openFile w).trace.map Event.eraseCount =
      (Shred rd path openFile2 w).trace.map Event.eraseCount ∧
    (∀ pre b off n err post,
      (Shred rd path openFile w).trace = pre ++ Event.WriteAt b off n err :: post →
      (err = none ↔ ∃ serr post1, post = Event.Sync serr :: post1)) ∧
    ((Shred fillRead "f" (fun _ c => ((some (shortWriteFile 2), none), c)) 0).outcome =
        Outcome.returned none ∧
      Event.WriteAt [2, 2] 0 0 none ∈
        (Shred fillRead "f" (fun _ c => ((some (shortWriteFile 2), none), c)) 0).trace ∧
      Event.Remove none ∈
        (Shred fillRead "f" (fun _ c => ((some (shortWriteFile 2), none), c)) 0).trace) := by
  refine ⟨?_, ?_, ?_, ?_, by decide⟩
  · unfold Shred
    rw [ho, ho2]
    exact (shredBody_same_but_count rd f g hfg w1).1
  · unfold Shred
    rw [ho, ho2]
    obtain ⟨_, h2, _⟩ := shredBody_same_but_count rd f g hfg w1
    simp only [h2, hfg.2.2.1]
  · unfold Shred
    rw [ho, ho2]
    obtain ⟨_, h2, h3⟩ := shredBody_same_but_count rd f g hfg w1
    simp [h2, h3, hfg.2.2.1, Event.eraseCount]
  · have h := Shred_path rd path openFile w
    generalize (Shred rd path openFile w).outcome = o at h ⊢
    generalize (Shred rd path openFile w).trace = t at h ⊢
    intro pre b off n err post hs
    rw [← mem_splits] at hs
    cases h
    all_goals simp [splits, opened, Pass.ok, Pass.writeFailed, Pass.syncFailed] at hs
    all_goals try casesm* _ ∨ _, _ ∧ _
    all_goals subst_vars
    all_goals simp

/-- C19, at the counting capability and its twin whose WriteAt reports one byte
less: both runs return the same value. -/
theorem Shred_ignores_write_count_witness :
    (Shred fillRead "f" (countingOpener 2 0) 0).outcome =
      (Shred fillRead "f" (fun _ c => ((some oneShortFile, none), c)) 0).outcome :=
  (Shred_ignores_write_count fillRead "f" (countingOpener 2 0)
    (fun _ c => ((some oneShortFile, none), c)) 0 0 (countingFile 2 0) oneShortFile
    (by rfl) (by rfl)
    ⟨rfl, rfl, rfl, rfl, fun b off w => by simp [countingFile, oneShortFile]⟩).1

/-- C20 as stated fails: the counting capability of size 2^48 + 1 on which no
call fails meets the three preconditions, as the opener returns a File with a nil
error, Stat returns a FileInfo with a nil error, and the size is at least 0, and
`Shred` panics in make nevertheless, because the size is above the allocation
limit. -/
theorem Shred_large_size_panics :
    (∀ p c, (countingOpener 281474976710657 0 p c).1 =
      (some (countingFile 281474976710657 0), none)) ∧
    (∀ c, ((countingFile 281474976710657 0).Stat c).1 = (some ⟨281474976710657⟩, none)) ∧
    (0 : Int) ≤ 281474976710657 ∧
    (Shred fillRead "f" (countingOpener 281474976710657 0) 0).outcome = Outcome.panicked ∧
    (Shred fillRead "f" (countingOpener 281474976710657 0) 0).trace =
      [Event.openFile "f" true none, Event.Stat (some ⟨281474976710657⟩) none,
        Event.deferredClose none] :=
  ⟨fun _ _ => rfl, fun c => by simp [countingFile], by decide, by decide, by decide⟩

/-- C20, amended: when the opener returns a File with every nil error, Stat
returns a FileInfo with every nil error and every reported size is from 0 to the
allocation limit of make, `Shred` does not panic; every run, whether or not it
panics, ends after at most 1 Stat, 3 WriteAt, 3 Sync, 2 Close and 1 Remove call.
With the first two conditions alone a run panics exactly when the call of Stat
on the opened File returned a size that is negative or above the allocation
limit, the cases in which make panics, and then no WriteAt, Sync, explicit Close
or Remove is called; the counting capabilities with size -1 and with size
2^48 + 1 show that both panics are reached. -/
theorem Shred_no_panic {σ : Type} (rd : RandRead σ) (path : String)
    (openFile : Opener σ) (w : σ)
    (hopen : ∀ p w1, (openFile p w1).1.2 = none → (openFile p w1).1.1.isSome)
    (hstat : ∀ p w1 f, (openFile p w1).1.1 = some f →
      ∀ w2, (f.Stat w2).1.2 = none → (f.Stat w2).1.1.isSome) :
    ((∀ p w1 f, (openFile p w1).1.1 = some f →
        ∀ w2 fi, (f.Stat w2).1 = (some fi, none) → 0 ≤ fi.Size ∧ fi.Size ≤ maxAlloc) →
      (Shred rd path openFile w).outcome ≠ Outcome.panicked) ∧
    (calls Call.Stat (Shred rd path openFile w).trace ≤ 1 ∧
      calls Call.WriteAt (Shred rd path openFile w).trace ≤ 3 ∧
      calls Call.Sync (Shred rd path openFile w).trace ≤ 3 ∧
      (Shred rd path openFile w).trace.countP Event.isClose ≤ 2 ∧
      calls Call.Remove (Shred rd path openFile w).trace ≤ 1) ∧
    ((Shred rd path openFile w).outcome = Outcome.panicked ↔
      ∃ f fi cerr, (openFile path w).1 = (some f, none) ∧
        (f.Stat (openFile path w).2).1 = (some fi, none) ∧
        (fi.Size < 0 ∨ (maxAlloc : Int) < fi.Size) ∧
        (Shred rd path openFile w).trace =
          [Event.openFile path true none, Event.Stat (some fi) none,
            Event.deferredClose cerr]) ∧
    (Shred fillRead "f" (countingOpener (-1) 0) 0).outcome = Outcome.panicked ∧
    (Shred fillRead "f" (countingOpener 281474976710657 0) 0).outcome = Outcome.panicked := by
  have h := Shred_path rd path openFile w
  have hh := Shred_trace_head rd path openFile w
  have hsm : ∀ f, (openFile path w).1 = (some f, none) →
      ∀ fi err, Event.Stat fi err ∈ (Shred rd path openFile w).trace →
        (f.Stat (openFile path w).2).1 = (fi, err) :=
    fun f ho => Shred_Stat_mem rd path openFile w f ho
  have ho1 := hopen path w
  have hs1 := hstat path w
  generalize (Shred rd path openFile w).outcome = o at h ⊢
  generalize (Shred rd path openFile w).trace = t at h hh hsm ⊢
  have hnil : t.head? = some (Event.openFile path false none) → False := by
    intro hn
    rw [hn] at hh
    simp only [Option.some.injEq, Event.openFile.injEq, true_and] at hh
    obtain ⟨hf, he⟩ := hh
    have := ho1 he.symm
    rw [← hf] at this
    cases this
  have hfile : t.head? = some (Event.openFile path true none) →
      ∃ f, (openFile path w).1 = (some f, none) := by
    intro hn
    rw [hn] at hh
    simp only [Option.some.injEq, Event.openFile.injEq, true_and] at hh
    obtain ⟨hf, he⟩ := hh
    rcases hop : openFile path w with ⟨⟨file, oerr⟩, w1⟩
    rw [hop] at hf he
    simp only at hf he
    subst he
    cases file with
    | none => cases hf
    | some f => exact ⟨f, rfl⟩
  have hinfo : t.head? = some (Event.openFile path true none) →
      Event.Stat none none ∈ t → False := by
    intro hn hm
    obtain ⟨f, ho⟩ := hfile hn
    have hst := hsm f ho none none hm
    have := hs1 f (by rw [ho]) (openFile path w).2 (by rw [hst])
    rw [hst] at this
    cases this
  refine ⟨?_, ?_, ?_, by rfl, by rfl⟩
  · intro hsize
    cases h
    case nilFile => exact fun _ => hnil (by simp)
    case nilInfo => exact fun _ => hinfo (by simp) (by simp)
    case sizeOutOfRange fi cerr hneg =>
      intro _
      obtain ⟨f, ho⟩ := hfile (by simp [opened])
      have hst := hsm f ho (some fi) none (by simp [opened])
      have := hsize path w f (by rw [ho]) (openFile path w).2 fi hst
      omega
    all_goals simp
  · cases h <;>
      simp [calls, Event.call, Event.isClose, opened, Pass.ok, Pass.writeFailed,
        Pass.syncFailed, List.countP_cons]
  · cases h
    case nilFile =>
      exact ⟨fun _ => (hnil (by simp)).elim, fun ⟨_, _, _, _, _, _, ht⟩ => by simp at ht⟩
    case nilInfo =>
      exact ⟨fun _ => (hinfo (by simp) (by simp)).elim,
        fun ⟨_, _, _, _, _, _, ht⟩ => by simp at ht⟩
    case sizeOutOfRange fi cerr hneg =>
      obtain ⟨f, ho⟩ := hfile (by simp [opened])
      exact ⟨fun _ => ⟨f, fi, cerr, ho, hsm f ho (some fi) none (by simp [opened]), hneg,
        by simp [opened]⟩, fun _ => rfl⟩
    all_goals
      simp [opened, Pass.ok, Pass.writeFailed, Pass.syncFailed]

/-- C20, at the counting capability of size 2 on which no call fails. -/
theorem Shred_no_panic_witness :
    (Shred fillRead "f" (countingOpener 2 0) 0).outcome ≠ Outcome.panicked :=
  (Shred_no_panic fillRead "f" (countingOpener 2 0) 0
    (fun _ _ _ => by rfl)
    (fun _ _ f hf w2 => by
      simp only [countingOpener, Option.some.injEq] at hf
      subst hf
      simp [countingFile])).1
    (fun _ _ f hf w2 fi => by
      simp only [countingOpener, Option.some.injEq] at hf
      subst hf
      simp only [countingFile]
      split <;> simp
      rintro rfl
      decide)

end shred
